import Mathlib

/-!
# Sync response decoding (`lib/structs/responses/sync.cpp`)

A shallow embedding of the decoders of `mtx::responses` and of the two derived
accessors of `InvitedRoom`, followed by the properties established about them.

Modelling conventions.

* `std::string` is a Lean `String`; `size()` is `String.utf8ByteSize` (the
  number of bytes of the UTF-8 encoding, which is what a parsed JSON string
  holds).
* A C++ exception is the `error` branch of `Except Exn`.
* `nlohmann::json` is the inductive type `Json`.  An object is an association
  list; looking a key up returns the first binding, so every `std::map`-backed
  object (unique keys) is represented, and the theorems hold for all lists.
* `std::map<std::string, T>` on the result side is a key-ordered association
  list without duplicate keys, built by `emplace_hint`.
* The event types and the collection parsers of `mtx/events/collections.hpp`
  and `mtx/responses/common.hpp` are outside this file of the repository: they
  are the fields of an `Externals` record, over which every theorem quantifies.
* The logger calls have no effect on the decoded value and are left out.
-/

namespace mtx

/-! ## Exceptions and JSON values -/

/-- The exceptions that can leave a decoder: the two `nlohmann::json`
exception classes used here (with their numeric id) and any other
`std::exception` raised by an event parser. -/
inductive Exn where
  | type_error (id : Nat)
  | out_of_range (id : Nat)
  | other_error (what : String)
  deriving DecidableEq, Repr

/-- The value type `nlohmann::json` as produced by parsing a JSON text.
`number_float` carries the IEEE-754 bit pattern of the double. -/
inductive Json where
  | null
  | boolean (b : Bool)
  | number_integer (i : Int)
  | number_unsigned (n : Nat)
  | number_float (bits : Nat)
  | string (s : String)
  | array (a : List Json)
  | object (o : List (String × Json))

namespace Json

/-- The lookup behind `obj.find(key)`: the bound value when `obj` is an object
holding `key`; `end()` (here `none`) otherwise, also when `obj` is no object. -/
def find? (j : Json) (key : String) : Option Json :=
  match j with
  | object o => o.lookup key
  | _ => none

/-- The call `obj.count(key)`: 1 when the key is found, 0 otherwise. -/
def count (j : Json) (key : String) : Nat :=
  if (j.find? key).isSome then 1 else 0

/-- The call `obj.contains(key)`. -/
def contains (j : Json) (key : String) : Bool :=
  (j.find? key).isSome

/-- The call `obj.is_array()`. -/
def is_array (j : Json) : Bool :=
  match j with
  | array _ => true
  | _ => false

/-- The call `obj.at(key)` (`at` is reserved in Lean, hence `at_`):
`type_error` 304 on a non-object, `out_of_range` 403 on a missing key. -/
def at_ (j : Json) (key : String) : Except Exn Json :=
  match j with
  | object o =>
    match o.lookup key with
    | some v => .ok v
    | none => .error (.out_of_range 403)
  | _ => .error (.type_error 304)

/-- The conversion `get<std::string>()`: `type_error` 302 unless a string. -/
def get_string (j : Json) : Except Exn String :=
  match j with
  | string s => .ok s
  | _ => .error (.type_error 302)

/-- The conversion `get<bool>()`: `type_error` 302 unless a boolean. -/
def get_bool (j : Json) : Except Exn Bool :=
  match j with
  | boolean b => .ok b
  | _ => .error (.type_error 302)

/-- The call `obj.value(key, std::string{})`-style lookup with a default:
`type_error` 306 on a non-object, the default on a missing key, otherwise the
conversion of the bound value. -/
def value {α : Type} (j : Json) (key : String) (get : Json → Except Exn α) (dflt : α) :
    Except Exn α :=
  match j with
  | object o =>
    match o.lookup key with
    | some v => get v
    | none => .ok dflt
  | _ => .error (.type_error 306)

/-- The pairs visited by `for (const auto &r : j.items())`: the bindings of an
object, the elements of an array keyed by their decimal index, nothing for
`null`, and the value itself under the empty key for any other primitive. -/
def items (j : Json) : List (String × Json) :=
  match j with
  | object o => o
  | array a => (List.range a.length).map toString |>.zip a
  | null => []
  | v => [("", v)]

/-- The values visited by `for (const auto &e : j)`: the elements of an array,
the bound values of an object, nothing for `null`, the value itself
otherwise. -/
def elements (j : Json) : List Json :=
  match j with
  | array a => a
  | object o => o.map Prod.snd
  | null => []
  | v => [v]

end Json

/-- Run a fallible conversion over a list, left to right, stopping at the
first exception (the element loop inside the container conversions). -/
def traverse {α β : Type} (f : α → Except Exn β) : List α → Except Exn (List β)
  | [] => .ok []
  | x :: xs =>
    match f x with
    | .error e => .error e
    | .ok y =>
      match traverse f xs with
      | .error e => .error e
      | .ok ys => .ok (y :: ys)

/-- The conversion `get<std::vector<std::string>>()`: `type_error` 302 unless
an array all of whose elements are strings. -/
def Json.get_string_vector (j : Json) : Except Exn (List String) :=
  match j with
  | .array a => traverse Json.get_string a
  | _ => .error (.type_error 302)

/-! ## Ordered maps -/

/-- The order of `std::string::operator<` on UTF-8 text: lexicographic on the
code points. -/
def key_lt (a b : String) : Bool :=
  decide (a.data < b.data)

/-- Insertion of a fresh key at its place in a key-ordered list. -/
def ordered_insert {α : Type} (k : String) (v : α) : List (String × α) → List (String × α)
  | [] => [(k, v)]
  | (k', v') :: rest =>
    if key_lt k k' then (k, v) :: (k', v') :: rest
    else (k', v') :: ordered_insert k v rest

/-- The call `m.emplace_hint(m.end(), k, v)` on a `std::map`: nothing happens
when `k` is already bound, otherwise the binding is added at its place. -/
def emplace_hint {α : Type} (m : List (String × α)) (k : String) (v : α) : List (String × α) :=
  match m.lookup k with
  | some _ => m
  | none => ordered_insert k v m

/-- The keys of a map, in iteration order. -/
def keys {α : Type} (m : List (String × α)) : List String :=
  m.map Prod.fst

/-! ## What the decoders take from outside this file -/

/-- Modelled from the spec: the stripped (invite or knock preview) state event
variant `mtx::events::collections::StrippedEvents`, whose declaration is in
`mtx/events/collections.hpp`.  The room-name, membership and room-avatar
alternatives carry the content fields the accessors read; every other
alternative of the variant is `Other`, with its discriminator. -/
inductive StrippedEvents where
  | Name (name : String)
  | Member (display_name : String) (avatar_url : String)
  | Avatar (url : String)
  | Other (type : String)
  deriving DecidableEq, Repr

/-- The event types and parsers declared in `mtx/events/collections.hpp` and
`mtx/responses/common.hpp`, and the two double-to-unsigned casts of the
platform, all taken as parameters.  A parser of `utils::` fills the container
it is handed; every call site hands it the container of a freshly
default-constructed section, so it is a function from the raw value to the
parsed sequence, or an exception. -/
structure Externals where
  TimelineEvents : Type
  StateEvents : Type
  EphemeralEvents : Type
  RoomAccountDataEvents : Type
  DeviceEvents : Type
  PresenceEvent : Type
  parse_timeline_events : Json → Except Exn (List TimelineEvents)
  parse_state_events : Json → Except Exn (List StateEvents)
  parse_ephemeral_events : Json → Except Exn (List EphemeralEvents)
  parse_room_account_data_events : Json → Except Exn (List RoomAccountDataEvents)
  parse_device_events : Json → Except Exn (List DeviceEvents)
  parse_stripped_events : Json → Except Exn (List StrippedEvents)
  presence_from_json : Json → Except Exn PresenceEvent
  double_to_uint64 : Nat → Nat
  double_to_uint16 : Nat → Nat

/-- The conversion `get<uint64_t>()`: the stored number cast to 64 bits,
`type_error` 302 when the value is no number. -/
def Json.get_uint64 (x : Externals) (j : Json) : Except Exn Nat :=
  match j with
  | .number_unsigned n => .ok (n % 2 ^ 64)
  | .number_integer i => .ok (i % 2 ^ 64).toNat
  | .number_float f => .ok (x.double_to_uint64 f % 2 ^ 64)
  | _ => .error (.type_error 302)

/-- The conversion `get<uint16_t>()`: the stored number or boolean cast to 16
bits, `type_error` 302 otherwise. -/
def Json.get_uint16 (x : Externals) (j : Json) : Except Exn Nat :=
  match j with
  | .number_unsigned n => .ok (n % 2 ^ 16)
  | .number_integer i => .ok (i % 2 ^ 16).toNat
  | .number_float f => .ok (x.double_to_uint16 f % 2 ^ 16)
  | .boolean b => .ok (if b then 1 else 0)
  | _ => .error (.type_error 302)

/-- The element loop of `get<std::map<std::string, uint16_t>>()`. -/
def get_map_loop (x : Externals) : List (String × Json) → List (String × Nat) →
    Except Exn (List (String × Nat))
  | [], m => .ok m
  | (k, v) :: rest, m =>
    match Json.get_uint16 x v with
    | .error e => .error e
    | .ok n => get_map_loop x rest (emplace_hint m k n)

/-- The conversion `get<std::map<std::string, uint16_t>>()`: `type_error` 302
unless an object, then every bound value converted. -/
def Json.get_map_uint16 (x : Externals) (j : Json) : Except Exn (List (String × Nat)) :=
  match j with
  | .object o => get_map_loop x o []
  | _ => .error (.type_error 302)

namespace responses

/-! ## The decoded model

The structs are declared in `mtx/responses/sync.hpp`; their fields are the
ones the decoders assign, with the types and defaults of the data model of the
spec. -/

/-- Modelled from the spec: room-scoped or global account data, the struct
`AccountData` of `mtx/responses/sync.hpp`, an ordered sequence of events. -/
structure AccountData (x : Externals) where
  events : List x.RoomAccountDataEvents := []

/-- Modelled from the spec: the state section of a room (`State`), an ordered
sequence of state events. -/
structure State (x : Externals) where
  events : List x.StateEvents := []

/-- Modelled from the spec: the timeline section of a room (`Timeline`):
`events` defaults to empty, `prev_batch` to the empty string, `limited` to
false. -/
structure Timeline (x : Externals) where
  events : List x.TimelineEvents := []
  prev_batch : String := ""
  limited : Bool := false

/-- Modelled from the spec: the two optional counters of a joined room
(highlight count, total notification count), absent by default. -/
structure UnreadNotifications where
  highlight_count : Option Nat := none
  notification_count : Option Nat := none
  deriving DecidableEq, Repr

/-- Modelled from the spec: the ephemeral section of a joined room
(`Ephemeral`). -/
structure Ephemeral (x : Externals) where
  events : List x.EphemeralEvents := []

/-- Modelled from the spec: the section of a joined room (`JoinedRoom`), every
field at its default when not decoded. -/
structure JoinedRoom (x : Externals) where
  state : State x := {}
  timeline : Timeline x := {}
  unread_notifications : UnreadNotifications := {}
  ephemeral : Ephemeral x := {}
  account_data : AccountData x := {}

/-- Modelled from the spec: the section of a left room (`LeftRoom`). -/
structure LeftRoom (x : Externals) where
  state : State x := {}
  timeline : Timeline x := {}

/-- Modelled from the spec: the section of an invited room (`InvitedRoom`),
its preview state. -/
structure InvitedRoom where
  invite_state : List StrippedEvents := []
  deriving DecidableEq, Repr

/-- Modelled from the spec: the section of a knocked room (`KnockedRoom`), its
preview state. -/
structure KnockedRoom where
  knock_state : List StrippedEvents := []
  deriving DecidableEq, Repr

/-- Modelled from the spec: the four membership categories (`Rooms`), each a
map from room id to room section (a `std::map`, which `emplace_hint` fills). -/
structure Rooms (x : Externals) where
  join : List (String × JoinedRoom x) := []
  leave : List (String × LeftRoom x) := []
  invite : List (String × InvitedRoom) := []
  knock : List (String × KnockedRoom) := []

/-- Modelled from the spec: the changed and left user ids of the device lists
(`DeviceLists`). -/
structure DeviceLists where
  changed : List String := []
  left : List String := []
  deriving DecidableEq, Repr

/-- Modelled from the spec: the to-device messages (`ToDevice`). -/
structure ToDevice (x : Externals) where
  events : List x.DeviceEvents := []

/-- Modelled from the spec: the whole sync response (`Sync`).  Only
`device_unused_fallback_key_types` is an optional value; every collection
defaults to empty and `next_batch` to the empty string. -/
structure Sync (x : Externals) where
  next_batch : String := ""
  rooms : Rooms x := {}
  to_device : ToDevice x := {}
  presence : List x.PresenceEvent := []
  device_lists : DeviceLists := {}
  device_one_time_keys_count : List (String × Nat) := []
  device_unused_fallback_key_types : Option (List String) := none
  account_data : AccountData x := {}

/-! ## The decoders (`lib/structs/responses/sync.cpp`)

`j.get<T>()` default-constructs a `T` and hands it to `from_json`; each decoder
below therefore starts from the default value of its section. -/

/-- Decoder `from_json(const json &, AccountData &)`. -/
def from_json_AccountData (x : Externals) (obj : Json) : Except Exn (AccountData x) := do
  let ev ← obj.at_ "events"
  let events ← x.parse_room_account_data_events ev
  pure { events := events }

/-- Decoder `from_json(const json &, State &)`. -/
def from_json_State (x : Externals) (obj : Json) : Except Exn (State x) := do
  let ev ← obj.at_ "events"
  let events ← x.parse_state_events ev
  pure { events := events }

/-- Decoder `from_json(const json &, Timeline &)`. -/
def from_json_Timeline (x : Externals) (obj : Json) : Except Exn (Timeline x) := do
  let prev_batch ← obj.value "prev_batch" Json.get_string ""
  let limited ← obj.value "limited" Json.get_bool false
  let ev ← obj.at_ "events"
  let events ← x.parse_timeline_events ev
  pure { events := events, prev_batch := prev_batch, limited := limited }

/-- Lines 40-41 and 43-44: one counter of the unread notifications, read only
when its key is found. -/
def notification_counter (x : Externals) (obj : Json) (key : String) :
    Except Exn (Option Nat) :=
  match obj.find? key with
  | some v => (Json.get_uint64 x v).map some
  | none => pure none

/-- Decoder `from_json(const json &, UnreadNotifications &)`. -/
def from_json_UnreadNotifications (x : Externals) (obj : Json) :
    Except Exn UnreadNotifications := do
  let highlight_count ← notification_counter x obj "highlight_count"
  let notification_count ← notification_counter x obj "notification_count"
  pure { highlight_count := highlight_count, notification_count := notification_count }

/-- Decoder `from_json(const json &, Ephemeral &)`. -/
def from_json_Ephemeral (x : Externals) (obj : Json) : Except Exn (Ephemeral x) :=
  if obj.count "events" = 0 then
    pure {}
  else do
    let ev ← obj.at_ "events"
    let events ← x.parse_ephemeral_events ev
    pure { events := events }

/-- Lines 59-60 and 80-81: the `state` field of a joined or left room. -/
def room_state (x : Externals) (obj : Json) : Except Exn (State x) :=
  if obj.count "state" ≠ 0 then do
    let s ← obj.at_ "state"
    from_json_State x s
  else pure {}

/-- Lines 62-63 and 83-84: the `timeline` field of a joined or left room. -/
def room_timeline (x : Externals) (obj : Json) : Except Exn (Timeline x) :=
  if obj.count "timeline" ≠ 0 then do
    let t ← obj.at_ "timeline"
    from_json_Timeline x t
  else pure {}

/-- Lines 65-66: the `unread_notifications` field of a joined room. -/
def room_unread_notifications (x : Externals) (obj : Json) : Except Exn UnreadNotifications :=
  match obj.find? "unread_notifications" with
  | some u => from_json_UnreadNotifications x u
  | none => pure {}

/-- Lines 68-69: the `ephemeral` field of a joined room. -/
def room_ephemeral (x : Externals) (obj : Json) : Except Exn (Ephemeral x) :=
  match obj.find? "ephemeral" with
  | some e => from_json_Ephemeral x e
  | none => pure {}

/-- Lines 71-74 (and 267-270 for the whole response): the `account_data`
field, decoded only when it is found and itself holds `events`. -/
def field_account_data (x : Externals) (obj : Json) : Except Exn (AccountData x) :=
  if obj.count "account_data" ≠ 0 then do
    let a ← obj.at_ "account_data"
    if a.count "events" ≠ 0 then from_json_AccountData x a else pure {}
  else pure {}

/-- Decoder `from_json(const json &, JoinedRoom &)`. -/
def from_json_JoinedRoom (x : Externals) (obj : Json) : Except Exn (JoinedRoom x) := do
  let state ← room_state x obj
  let timeline ← room_timeline x obj
  let unread_notifications ← room_unread_notifications x obj
  let ephemeral ← room_ephemeral x obj
  let account_data ← field_account_data x obj
  pure { state := state, timeline := timeline, unread_notifications := unread_notifications,
         ephemeral := ephemeral, account_data := account_data }

/-- Decoder `from_json(const json &, LeftRoom &)`. -/
def from_json_LeftRoom (x : Externals) (obj : Json) : Except Exn (LeftRoom x) := do
  let state ← room_state x obj
  let timeline ← room_timeline x obj
  pure { state := state, timeline := timeline }

/-- The loop state of `InvitedRoom::name` after one more event: a room-name
event overwrites `room_name`; a membership event sets `member_name` only while
it is still empty. -/
def name_step (acc : String × String) (event : StrippedEvents) : String × String :=
  match event with
  | .Name n => (n, acc.2)
  | .Member display_name _ => if acc.2 = "" then (acc.1, display_name) else acc
  | _ => acc

/-- Accessor `InvitedRoom::name`; `s.empty()` is `s = ""`. -/
def InvitedRoom.name (room : InvitedRoom) : String :=
  let acc := room.invite_state.foldl name_step ("", "")
  if acc.1 = "" then acc.2 else acc.1

/-- The loop state of `InvitedRoom::avatar` after one more event. -/
def avatar_step (acc : String × String) (event : StrippedEvents) : String × String :=
  match event with
  | .Avatar url => (url, acc.2)
  | .Member _ avatar_url => if acc.2 = "" then (acc.1, avatar_url) else acc
  | _ => acc

/-- Accessor `InvitedRoom::avatar`; `s.empty()` is `s = ""`. -/
def InvitedRoom.avatar (room : InvitedRoom) : String :=
  let acc := room.invite_state.foldl avatar_step ("", "")
  if acc.1 = "" then acc.2 else acc.1

/-- Decoder `from_json(const json &, InvitedRoom &)`. -/
def from_json_InvitedRoom (x : Externals) (obj : Json) : Except Exn InvitedRoom :=
  match obj.find? "invite_state" with
  | some state =>
    match state.find? "events" with
    | some events => do
      let invite_state ← x.parse_stripped_events events
      pure { invite_state := invite_state }
    | none => pure {}
  | none => pure {}

/-- Decoder `from_json(const json &, KnockedRoom &)`. -/
def from_json_KnockedRoom (x : Externals) (obj : Json) : Except Exn KnockedRoom :=
  match obj.find? "knock_state" with
  | some state =>
    match state.find? "events" with
    | some events => do
      let knock_state ← x.parse_stripped_events events
      pure { knock_state := knock_state }
    | none => pure {}
  | none => pure {}

/-- The body of each of the four loops of `from_json(const json &, Rooms &)`
over `entries->items()`: a key of fewer than 256 bytes has its value decoded
and emplaced, any other key is skipped without looking at its value. -/
def rooms_loop {α : Type} (get : Json → Except Exn α) :
    List (String × Json) → List (String × α) → Except Exn (List (String × α))
  | [], m => .ok m
  | (key, value) :: rest, m =>
    if key.utf8ByteSize < 256 then
      match get value with
      | .error e => .error e
      | .ok room => rooms_loop get rest (emplace_hint m key room)
    else rooms_loop get rest m

/-- One category of `from_json(const json &, Rooms &)`: the loop when the
category is found in `obj`, the empty map otherwise. -/
def rooms_category {α : Type} (get : Json → Except Exn α) (obj : Json) (category : String) :
    Except Exn (List (String × α)) :=
  match obj.find? category with
  | some entries => rooms_loop get entries.items []
  | none => .ok []

/-- Decoder `from_json(const json &, Rooms &)`. -/
def from_json_Rooms (x : Externals) (obj : Json) : Except Exn (Rooms x) := do
  let join ← rooms_category (from_json_JoinedRoom x) obj "join"
  let leave ← rooms_category (from_json_LeftRoom x) obj "leave"
  let invite ← rooms_category (from_json_InvitedRoom x) obj "invite"
  let knock ← rooms_category (from_json_KnockedRoom x) obj "knock"
  pure { join := join, leave := leave, invite := invite, knock := knock }

/-- The call `std::erase_if` with the predicate of the device lists: the user
ids of more than 255 bytes are removed, the others keep their order. -/
def erase_invalid_users (users : List String) : List String :=
  users.filter (fun user => !decide (user.utf8ByteSize > 255))

/-- Lines 200-210 and 212-222: one field of the device lists, converted to a
vector of strings and filtered when its key is found, empty otherwise. -/
def device_list_field (obj : Json) (key : String) : Except Exn (List String) :=
  if obj.count key ≠ 0 then do
    let c ← obj.at_ key
    let v ← c.get_string_vector
    pure (erase_invalid_users v)
  else pure []

/-- Decoder `from_json(const json &, DeviceLists &)`. -/
def from_json_DeviceLists (obj : Json) : Except Exn DeviceLists := do
  let changed ← device_list_field obj "changed"
  let left ← device_list_field obj "left"
  pure { changed := changed, left := left }

/-- Decoder `from_json(const json &, ToDevice &)`. -/
def from_json_ToDevice (x : Externals) (obj : Json) : Except Exn (ToDevice x) :=
  if obj.count "events" ≠ 0 then do
    let ev ← obj.at_ "events"
    let events ← x.parse_device_events ev
    pure { events := events }
  else pure {}

/-- The presence loop of `from_json(const json &, Sync &)`: every element is
decoded inside a `try`; an element whose decoding throws is skipped. -/
def presence_loop (x : Externals) : List Json → List x.PresenceEvent
  | [] => []
  | e :: rest =>
    match x.presence_from_json e with
    | .ok p => p :: presence_loop x rest
    | .error _ => presence_loop x rest

/-- Lines 235-236 of `from_json(const json &, Sync &)`: the `rooms` field. -/
def Sync_rooms (x : Externals) (obj : Json) : Except Exn (Rooms x) :=
  if obj.count "rooms" ≠ 0 then do
    let r ← obj.at_ "rooms"
    from_json_Rooms x r
  else pure {}

/-- Lines 238-239: the `device_lists` field. -/
def Sync_device_lists (obj : Json) : Except Exn DeviceLists :=
  if obj.count "device_lists" ≠ 0 then do
    let d ← obj.at_ "device_lists"
    from_json_DeviceLists d
  else pure {}

/-- Lines 241-243: the `to_device` field. -/
def Sync_to_device (x : Externals) (obj : Json) : Except Exn (ToDevice x) :=
  if obj.count "to_device" ≠ 0 then do
    let t ← obj.at_ "to_device"
    from_json_ToDevice x t
  else pure {}

/-- Lines 245-247: the `device_one_time_keys_count` field. -/
def Sync_device_one_time_keys_count (x : Externals) (obj : Json) :
    Except Exn (List (String × Nat)) :=
  if obj.count "device_one_time_keys_count" ≠ 0 then do
    let k ← obj.at_ "device_one_time_keys_count"
    k.get_map_uint16 x
  else pure []

/-- Lines 249-251: the `device_unused_fallback_key_types` field, converted
only when it is found and is an array. -/
def Sync_device_unused_fallback_key_types (obj : Json) : Except Exn (Option (List String)) :=
  match obj.find? "device_unused_fallback_key_types" with
  | some fallback_keys =>
    if fallback_keys.is_array then fallback_keys.get_string_vector.map some
    else pure none
  | none => pure none

/-- Lines 253-265: the `presence` field. -/
def Sync_presence (x : Externals) (obj : Json) : Except Exn (List x.PresenceEvent) :=
  if obj.count "presence" ≠ 0 then do
    let p ← obj.at_ "presence"
    if p.contains "events" then do
      let events ← p.at_ "events"
      pure (presence_loop x events.elements)
    else pure []
  else pure []

/-- Line 272: the `next_batch` field. -/
def Sync_next_batch (obj : Json) : Except Exn String := do
  let n ← obj.at_ "next_batch"
  n.get_string

/-- Decoder `from_json(const json &, Sync &)`: the eight fields in the order
of the source; the first exception ends the decoding. -/
def from_json_Sync (x : Externals) (obj : Json) : Except Exn (Sync x) := do
  let rooms ← Sync_rooms x obj
  let device_lists ← Sync_device_lists obj
  let to_device ← Sync_to_device x obj
  let device_one_time_keys_count ← Sync_device_one_time_keys_count x obj
  let device_unused_fallback_key_types ← Sync_device_unused_fallback_key_types obj
  let presence ← Sync_presence x obj
  let account_data ← field_account_data x obj
  let next_batch ← Sync_next_batch obj
  pure { next_batch := next_batch, rooms := rooms, to_device := to_device,
         presence := presence, device_lists := device_lists,
         device_one_time_keys_count := device_one_time_keys_count,
         device_unused_fallback_key_types := device_unused_fallback_key_types,
         account_data := account_data }

/-! ## Editing a raw document -/

/-- The object without its bindings of `key`; any other value unchanged. -/
def erase_key (j : Json) (key : String) : Json :=
  match j with
  | .object o => .object (o.filter (fun kv => !(kv.1 == key)))
  | v => v

/-- The bindings `o` with `key` bound to `v`: an existing binding is replaced,
a fresh one is added at its place in the key order. -/
def set_key (key : String) (v : Json) : List (String × Json) → List (String × Json)
  | [] => [(key, v)]
  | (k', v') :: rest =>
    if key = k' then (key, v) :: rest
    else if key_lt key k' then (key, v) :: (k', v') :: rest
    else (k', v') :: set_key key v rest

/-! ## A concrete catalogue, for evaluating the decoders -/

/-- Modelled from the spec: the catch-all arm of the event tag dispatcher of
`mtx/events/collections.hpp`.  A record that is a key-value document decodes
to the generic variant carrying the untouched payload; any other record is a
decode failure. -/
def generic_event (e : Json) : Except Exn Json :=
  match e with
  | .object _ => .ok e
  | _ => .error (.type_error 302)

/-- Modelled from the spec: a collection decoder of `mtx/responses/common.hpp`
with the strict policy.  The raw value has to be an array; every element goes
through the dispatcher and the first failure is the failure of the whole. -/
def strict_collection {α : Type} (dispatch : Json → Except Exn α) (events : Json) :
    Except Exn (List α) :=
  match events with
  | .array a => traverse dispatch a
  | _ => .error (.type_error 302)

/-- Modelled from the spec: the dispatcher for stripped state, restricted to
its catch-all arm (the discriminator strings of the typed arms are not part of
the spec): a key-value document decodes to `Other` with its `type`. -/
def generic_stripped_event (e : Json) : Except Exn StrippedEvents :=
  match e with
  | .object _ =>
    match e.find? "type" with
    | some (.string t) => .ok (.Other t)
    | _ => .ok (.Other "")
  | _ => .error (.type_error 302)

/-- Modelled from the spec: the catalogue in which every event is the generic
variant and every collection but presence is strict.  The theorems below hold
for every catalogue; this one serves to evaluate them. -/
def generic_externals : Externals where
  TimelineEvents := Json
  StateEvents := Json
  EphemeralEvents := Json
  RoomAccountDataEvents := Json
  DeviceEvents := Json
  PresenceEvent := Json
  parse_timeline_events := strict_collection generic_event
  parse_state_events := strict_collection generic_event
  parse_ephemeral_events := strict_collection generic_event
  parse_room_account_data_events := strict_collection generic_event
  parse_device_events := strict_collection generic_event
  parse_stripped_events := strict_collection generic_stripped_event
  presence_from_json := generic_event
  double_to_uint64 := fun _ => 0
  double_to_uint16 := fun _ => 0

/-- A string of `n` bytes, all `a`. -/
def id_of_size (n : Nat) : String :=
  String.mk (List.replicate n 'a')

/-- The timeline `{"events":[],"limited":true,"prev_batch":"p1"}`. -/
def example_timeline : Json :=
  .object [("events", .array []), ("limited", .boolean true), ("prev_batch", .string "p1")]

/-- The room section `{"timeline":{"events":[],"limited":true,"prev_batch":"p1"}}`. -/
def example_room : Json :=
  .object [("timeline", example_timeline)]

/-- The `rooms` value
`{"join":{"!a:x":{"timeline":{"events":[],"limited":true,"prev_batch":"p1"}}}}`. -/
def example_rooms : Json :=
  .object [("join", .object [("!a:x", example_room)])]

/-- The document
`{"next_batch":"tok1","rooms":{"join":{"!a:x":{"timeline":{"events":[],"limited":true,"prev_batch":"p1"}}}}}`. -/
def example_document : Json :=
  .object [("next_batch", .string "tok1"), ("rooms", example_rooms)]

/-! ## Sample documents and reference definitions -/

/-- The document
`{"next_batch":"tok1","rooms":{"join":{"!a:x":{},"aa...a":{}}}}` whose second
room id has 256 bytes. -/
def oversized_document : Json :=
  .object [("next_batch", .string "tok1"),
    ("rooms", .object [("join", .object [("!a:x", .object []),
      (id_of_size 256, .object [])])])]

/-- The `device_lists` object `{"changed":["@a:x","aa...a","@b:x"],"left":["aa...a","@c:x"]}`
whose long ids have 256 and 300 bytes. -/
def example_device_lists : Json :=
  .object [("changed", .array [.string "@a:x", .string (id_of_size 256), .string "@b:x"]),
    ("left", .array [.string (id_of_size 300), .string "@c:x"])]

/-- The bindings of the document `{"device_lists":{"changed":"@a:x"}}`, which
has no `next_batch` and whose `changed` is a string where an array is
expected. -/
def malformed_device_lists : List (String × Json) :=
  [("device_lists", .object [("changed", .string "@a:x")])]

/-- The bindings of the document `{"rooms":{}}`. -/
def empty_rooms : List (String × Json) :=
  [("rooms", .object [])]

/-- Two raw documents hold the same thing under `key`, as far as `find`,
`count`, `contains` and `at` can tell. -/
def same_field (a b : Json) (key : String) : Prop :=
  a.find? key = b.find? key ∧ a.at_ key = b.at_ key

/-- The document
`{"next_batch":"tok1","presence":{"events":[{"type":"m.presence"},5,{}]}}`,
whose second presence element is no key-value document. -/
def presence_document : Json :=
  .object [("next_batch", .string "tok1"),
    ("presence", .object [("events",
      .array [.object [("type", .string "m.presence")], .number_unsigned 5, .object []])])]

/-- A category of a raw `rooms` value is either missing, or an object in which
every entry with a key of fewer than 256 bytes has a value that `get`
decodes. -/
def decodable_category {α : Type} (get : Json → Except Exn α) (obj : Json)
    (category : String) : Prop :=
  obj.find? category = none ∨
    ∃ kvs, obj.find? category = some (.object kvs) ∧
      ∀ kv ∈ kvs, kv.1.utf8ByteSize < 256 → ∃ a, get kv.2 = .ok a

/-- The raw `rooms` value `{"join":{"aa...a":{},"aa...aa":{}}}` whose two room
ids have 255 and 256 bytes. -/
def boundary_rooms : Json :=
  .object [("join", .object [(id_of_size 255, .object []), (id_of_size 256, .object [])])]

/-- The name content of the last room-name event of a preview state, if there
is one (reference definition for the accessor `InvitedRoom::name`). -/
def last_room_name : List StrippedEvents → Option String
  | [] => none
  | .Name n :: rest => some ((last_room_name rest).getD n)
  | _ :: rest => last_room_name rest

/-- The name contents of the room-name events of a preview state, in document
order. -/
def room_names (st : List StrippedEvents) : List String :=
  st.filterMap (fun e => match e with
    | .Name n => some n
    | _ => none)

/-- The display names of the membership events of a preview state, in document
order. -/
def member_display_names (st : List StrippedEvents) : List String :=
  st.filterMap (fun e => match e with
    | .Member display_name _ => some display_name
    | _ => none)

/-- Reference for `InvitedRoom::name`, after the words of its claim: `n` is the
name content of the last room-name event (empty if there is none); a non-empty
`n` is the result, otherwise the display name of the first membership event
whose display name is non-empty, or the empty string. -/
def name_reference (st : List StrippedEvents) : String :=
  let n := (room_names st).getLast?.getD ""
  if n ≠ "" then n
  else ((member_display_names st).find? (fun d => d != "")).getD ""

/-- The urls of the room-avatar events of a preview state, in document
order. -/
def room_avatar_urls (st : List StrippedEvents) : List String :=
  st.filterMap (fun e => match e with
    | .Avatar url => some url
    | _ => none)

/-- The avatar urls of the membership events of a preview state, in document
order. -/
def member_avatar_urls (st : List StrippedEvents) : List String :=
  st.filterMap (fun e => match e with
    | .Member _ avatar_url => some avatar_url
    | _ => none)

/-- Reference for `InvitedRoom::avatar`, after the words of its claim: the url
of the last room-avatar event when that url is non-empty, otherwise the
avatar url of the first membership event whose avatar url is non-empty,
otherwise the empty string. -/
def avatar_reference (st : List StrippedEvents) : String :=
  let u := (room_avatar_urls st).getLast?.getD ""
  if u ≠ "" then u
  else ((member_avatar_urls st).find? (fun a => a != "")).getD ""

/-- The event is a membership event. -/
def is_member (e : StrippedEvents) : Bool :=
  match e with
  | .Member _ _ => true
  | _ => false

/-- The event is a room-name event. -/
def is_name (e : StrippedEvents) : Bool :=
  match e with
  | .Name _ => true
  | _ => false

/-- The timeline `{"events":[],"limited":true}`, without `prev_batch`. -/
def timeline_without_prev_batch : List (String × Json) :=
  [("events", .array []), ("limited", .boolean true)]

/-- The document `{"next_batch":"tok1","rooms":{"join":{"!a:x":{"timeline":{}}}}}`:
a joined room whose timeline object has no `events`. -/
def timeline_without_events_document : Json :=
  .object [("next_batch", .string "tok1"),
    ("rooms", .object [("join", .object [("!a:x", .object [("timeline", .object [])])])])]

/-- The document `{"next_batch":"tok1","rooms":{"leave":{"!a:x":{"state":{}}}}}`:
a left room whose state object has no `events`. -/
def state_without_events_document : Json :=
  .object [("next_batch", .string "tok1"),
    ("rooms", .object [("leave", .object [("!a:x", .object [("state", .object [])])])])]

/-- The document
`{"account_data":{},"device_lists":{},"next_batch":"tok1","presence":{},"rooms":{"invite":{"!i:x":{"invite_state":{}}},"join":{"!a:x":{"ephemeral":{},"unread_notifications":{}}},"leave":{"!b:x":{}}},"to_device":{}}`,
in which every section is present and holds none of its fields. -/
def hollow_document : Json :=
  .object [("account_data", .object []), ("device_lists", .object []),
    ("next_batch", .string "tok1"), ("presence", .object []),
    ("rooms", .object [
      ("invite", .object [("!i:x", .object [("invite_state", .object [])])]),
      ("join", .object [("!a:x",
        .object [("ephemeral", .object []), ("unread_notifications", .object [])])]),
      ("leave", .object [("!b:x", .object [])])]),
    ("to_device", .object [])]

/-- The raw value with `f` applied to what an object binds to a key of
`fields`; the other bindings, and any value that is no object, are
unchanged. -/
def map_fields (fields : List String) (f : Json → Json) (j : Json) : Json :=
  match j with
  | .object o => .object (o.map (fun kv => if kv.1 ∈ fields then (kv.1, f kv.2) else kv))
  | v => v

/-- A category of `rooms` without the entries whose key has 256 bytes or
more. -/
def drop_oversized_rooms (category : Json) : Json :=
  match category with
  | .object o => .object (o.filter (fun kv => !decide (256 ≤ kv.1.utf8ByteSize)))
  | v => v

/-- The test on an element of a device list: a string of more than 255 bytes
goes, anything else stays. -/
def keep_user (e : Json) : Bool :=
  match e with
  | .string s => !decide (255 < s.utf8ByteSize)
  | _ => true

/-- A device list without the strings of more than 255 bytes. -/
def drop_oversized_users (users : Json) : Json :=
  match users with
  | .array a => .array (a.filter keep_user)
  | v => v

/-- The document obtained by deleting every room entry whose key has 256 bytes
or more from the four categories of `rooms`, and every string of more than 255
bytes from `device_lists.changed` and `device_lists.left`. -/
def pruned_document (doc : Json) : Json :=
  map_fields ["device_lists"] (map_fields ["changed", "left"] drop_oversized_users)
    (map_fields ["rooms"]
      (map_fields ["join", "leave", "invite", "knock"] drop_oversized_rooms) doc)

/-- The document
`{"device_lists":{"changed":["@a:x","aa...a"]},"next_batch":"tok1","rooms":{"join":{"!a:x":{},"aa...a":{}}}}`
with a user id of 300 bytes and a room id of 256 bytes. -/
def prunable_document : Json :=
  .object [("device_lists",
      .object [("changed", .array [.string "@a:x", .string (id_of_size 300)])]),
    ("next_batch", .string "tok1"),
    ("rooms", .object [("join", .object [("!a:x", .object []),
      (id_of_size 256, .object [])])])]

/-- What a decoder does with an optional field.  When the raw field is absent
the decoded value is the default; when it is present, its decoder has to
succeed, with the decoded value as its result. -/
def field_spec {α : Type} (raw : Option Json) (decode : Json → Except Exn α)
    (dflt got : α) : Prop :=
  match raw with
  | none => got = dflt
  | some v => decode v = .ok got

/-- What a decoder does with the `events` of an optional section.  When the
section is absent, or present without `events`, the decoded sequence is empty;
when `events` is present, its parser has to succeed, with the decoded sequence
as its result. -/
def events_field_spec {α : Type} (raw : Option Json) (parse : Json → Except Exn (List α))
    (got : List α) : Prop :=
  match raw with
  | none => got = []
  | some sec => field_spec (sec.find? "events") parse [] got

/-- The joined room `{"state":{"events":[]},"unread_notifications":{"highlight_count":1}}`:
a state next to an absent timeline, one counter next to an absent one. -/
def sparse_room : Json :=
  .object [("state", .object [("events", .array [])]),
    ("unread_notifications", .object [("highlight_count", .number_unsigned 1)])]

end responses

end mtx

/-! # Properties -/

namespace mtx

/-! ## Exceptions -/

theorem bind_ok_iff {α β : Type} (e : Except Exn α) (f : α → Except Exn β) (b : β) :
    (e >>= f) = .ok b ↔ ∃ a, e = .ok a ∧ f a = .ok b := by
  cases e with
  | error err => simp [bind, Except.bind]
  | ok a => simp [bind, Except.bind]

theorem pure_ok_iff {α : Type} (a b : α) :
    (pure a : Except Exn α) = .ok b ↔ a = b := by
  simp [pure, Except.pure]

theorem count_ne_zero_iff (j : Json) (key : String) :
    j.count key ≠ 0 ↔ ∃ v, j.find? key = some v := by
  unfold Json.count
  cases h : j.find? key <;> simp

theorem count_eq_zero_iff (j : Json) (key : String) :
    j.count key = 0 ↔ j.find? key = none := by
  unfold Json.count
  cases h : j.find? key <;> simp

theorem at_of_find (j : Json) (key : String) (v : Json) (h : j.find? key = some v) :
    j.at_ key = .ok v := by
  cases j <;> simp_all [Json.find?, Json.at_]

theorem at_of_find_none (j : Json) (key : String) (h : j.find? key = none) :
    ∃ e, j.at_ key = .error e := by
  cases j with
  | object o =>
    simp only [Json.find?] at h
    simp [Json.at_, h]
  | _ => simp [Json.at_]

theorem at_ok_iff (j : Json) (key : String) (v : Json) :
    j.at_ key = .ok v ↔ j.find? key = some v := by
  constructor
  · intro h
    cases hf : j.find? key with
    | none =>
      obtain ⟨e, he⟩ := at_of_find_none j key hf
      rw [he] at h
      cases h
    | some w =>
      rw [at_of_find j key w hf] at h
      cases h
      rfl
  · exact at_of_find j key v

/-! ## Ordered maps -/

theorem lookup_cons_self {α : Type} (k : String) (v : α) (t : List (String × α)) :
    ((k, v) :: t).lookup k = some v := by
  simp [List.lookup_cons]

theorem lookup_cons_ne {α : Type} (k k' : String) (v : α) (t : List (String × α))
    (h : k' ≠ k) : ((k, v) :: t).lookup k' = t.lookup k' := by
  have hb : (k' == k) = false := by simpa using h
  simp [List.lookup_cons, hb]

theorem keys_ordered_insert {α : Type} (k : String) (v : α) (m : List (String × α))
    (k' : String) : k' ∈ keys (ordered_insert k v m) ↔ k' = k ∨ k' ∈ keys m := by
  induction m with
  | nil => simp [ordered_insert, keys]
  | cons hd tl ih =>
    obtain ⟨a, b⟩ := hd
    unfold ordered_insert
    split
    · simp [keys]
    · simp only [keys, List.map_cons, List.mem_cons] at ih ⊢
      rw [ih]
      tauto

theorem mem_keys_of_lookup {α : Type} (m : List (String × α)) (k : String) (a : α)
    (h : m.lookup k = some a) : k ∈ keys m := by
  induction m with
  | nil => simp at h
  | cons hd tl ih =>
    obtain ⟨a', b'⟩ := hd
    by_cases hkk : k = a'
    · simp [keys, hkk]
    · rw [lookup_cons_ne a' k b' tl hkk] at h
      simp only [keys, List.map_cons, List.mem_cons]
      exact Or.inr (ih h)

theorem keys_emplace_hint {α : Type} (m : List (String × α)) (k : String) (v : α)
    (k' : String) : k' ∈ keys (emplace_hint m k v) ↔ k' = k ∨ k' ∈ keys m := by
  unfold emplace_hint
  cases h : m.lookup k with
  | none => simpa using keys_ordered_insert k v m k'
  | some a =>
    simp only
    constructor
    · intro hk
      exact Or.inr hk
    · rintro (rfl | hk)
      · exact mem_keys_of_lookup m k' a h
      · exact hk

theorem lookup_ordered_insert {α : Type} (k : String) (v : α) (m : List (String × α))
    (h : m.lookup k = none) (k' : String) :
    (ordered_insert k v m).lookup k' = if k' = k then some v else m.lookup k' := by
  induction m with
  | nil =>
    by_cases hk : k' = k
    · subst hk
      simp [ordered_insert, lookup_cons_self]
    · simp [ordered_insert, lookup_cons_ne k k' v [] hk, hk]
  | cons hd tl ih =>
    obtain ⟨a, b⟩ := hd
    have hne : k ≠ a := by
      intro hka
      subst hka
      rw [lookup_cons_self] at h
      cases h
    rw [lookup_cons_ne a k b tl hne] at h
    unfold ordered_insert
    split
    · by_cases hk : k' = k
      · subst hk
        simp [lookup_cons_self]
      · rw [lookup_cons_ne k k' v _ hk]
        simp [hk]
    · by_cases hka : k' = a
      · subst hka
        have hk : k' ≠ k := fun e => hne e.symm
        simp [lookup_cons_self, hk]
      · rw [lookup_cons_ne a k' b _ hka, lookup_cons_ne a k' b _ hka]
        exact ih h

theorem lookup_emplace_hint {α : Type} (m : List (String × α)) (k : String) (v : α)
    (k' : String) :
    (emplace_hint m k v).lookup k' =
      match m.lookup k' with
      | some a => some a
      | none => if k' = k then some v else none := by
  unfold emplace_hint
  cases h : m.lookup k with
  | none =>
    simp only
    rw [lookup_ordered_insert k v m h k']
    by_cases hk : k' = k
    · subst hk
      simp [h]
    · simp only [hk, if_false]
      cases m.lookup k' <;> rfl
  | some a =>
    simp only
    by_cases hk : k' = k
    · subst hk
      simp [h]
    · simp only [hk, if_false]
      cases m.lookup k' <;> rfl

theorem mem_keys_iff_lookup {α : Type} (m : List (String × α)) (k : String) :
    k ∈ keys m ↔ ∃ a, m.lookup k = some a := by
  constructor
  · intro hk
    induction m with
    | nil => simp [keys] at hk
    | cons hd tl ih =>
      obtain ⟨a, b⟩ := hd
      by_cases hka : k = a
      · subst hka
        exact ⟨b, lookup_cons_self k b tl⟩
      · rw [lookup_cons_ne a k b tl hka]
        simp only [keys, List.map_cons, List.mem_cons] at hk
        rcases hk with hk | hk
        · exact absurd hk hka
        · exact ih hk
  · rintro ⟨a, ha⟩
    exact mem_keys_of_lookup m k a ha

/-! ## The room loops -/

namespace responses

theorem rooms_loop_lookup {α : Type} (get : Json → Except Exn α)
    (entries : List (String × Json)) (m r : List (String × α))
    (h : rooms_loop get entries m = .ok r) (k : String) :
    r.lookup k =
      match m.lookup k with
      | some a => some a
      | none =>
        if k.utf8ByteSize < 256 then (entries.lookup k).bind (fun v => (get v).toOption)
        else none := by
  induction entries generalizing m with
  | nil =>
    simp only [rooms_loop, Except.ok.injEq] at h
    subst h
    cases m.lookup k <;> simp
  | cons hd tl ih =>
    obtain ⟨key, value⟩ := hd
    unfold rooms_loop at h
    by_cases hs : key.utf8ByteSize < 256
    · simp only [hs, if_true] at h
      cases hg : get value with
      | error e =>
        rw [hg] at h
        cases h
      | ok room =>
        rw [hg] at h
        simp only at h
        rw [ih _ h, lookup_emplace_hint]
        cases hm : m.lookup k with
        | some a => rfl
        | none =>
          by_cases hk : k = key
          · subst hk
            simp [hs, lookup_cons_self, hg, Except.toOption]
          · simp only [hk, if_false]
            rw [lookup_cons_ne key k value tl hk]
    · simp only [hs, if_false] at h
      rw [ih _ h]
      cases hm : m.lookup k with
      | some a => rfl
      | none =>
        by_cases hk : k = key
        · subst hk
          simp [hs]
        · rw [lookup_cons_ne key k value tl hk]

theorem rooms_loop_decodes {α : Type} (get : Json → Except Exn α)
    (entries : List (String × Json)) (m r : List (String × α))
    (h : rooms_loop get entries m = .ok r) :
    ∀ kv ∈ entries, kv.1.utf8ByteSize < 256 → ∃ a, get kv.2 = .ok a := by
  induction entries generalizing m with
  | nil => simp
  | cons hd tl ih =>
    obtain ⟨key, value⟩ := hd
    unfold rooms_loop at h
    intro kv hkv hsz
    by_cases hs : key.utf8ByteSize < 256
    · simp only [hs, if_true] at h
      cases hg : get value with
      | error e =>
        rw [hg] at h
        cases h
      | ok room =>
        rw [hg] at h
        simp only at h
        rcases List.mem_cons.mp hkv with rfl | hmem
        · exact ⟨room, hg⟩
        · exact ih _ h kv hmem hsz
    · simp only [hs, if_false] at h
      rcases List.mem_cons.mp hkv with rfl | hmem
      · exact absurd hsz hs
      · exact ih _ h kv hmem hsz

theorem rooms_loop_succeeds {α : Type} (get : Json → Except Exn α)
    (entries : List (String × Json)) (m : List (String × α))
    (h : ∀ kv ∈ entries, kv.1.utf8ByteSize < 256 → ∃ a, get kv.2 = .ok a) :
    ∃ r, rooms_loop get entries m = .ok r := by
  induction entries generalizing m with
  | nil => exact ⟨m, rfl⟩
  | cons hd tl ih =>
    obtain ⟨key, value⟩ := hd
    have htl : ∀ kv ∈ tl, kv.1.utf8ByteSize < 256 → ∃ a, get kv.2 = .ok a :=
      fun kv hkv => h kv (List.mem_cons_of_mem _ hkv)
    unfold rooms_loop
    by_cases hs : key.utf8ByteSize < 256
    · obtain ⟨room, hg⟩ := h (key, value) (List.mem_cons_self _ _) hs
      simp only [hs, if_true, hg]
      exact ih _ htl
    · simp only [hs, if_false]
      exact ih _ htl

theorem rooms_category_keys {α : Type} (get : Json → Except Exn α) (obj : Json)
    (category : String) (r : List (String × α))
    (h : rooms_category get obj category = .ok r) :
    ∀ k ∈ keys r, k.utf8ByteSize < 256 := by
  intro k hk
  obtain ⟨a, ha⟩ := (mem_keys_iff_lookup r k).mp hk
  unfold rooms_category at h
  cases hf : obj.find? category with
  | none =>
    rw [hf] at h
    simp only [Except.ok.injEq] at h
    subst h
    simp at ha
  | some entries =>
    rw [hf] at h
    simp only at h
    have hl := rooms_loop_lookup get entries.items [] r h k
    rw [ha] at hl
    by_contra hs
    simp [hs] at hl

theorem from_json_Rooms_ok_iff (x : Externals) (obj : Json) (r : Rooms x) :
    from_json_Rooms x obj = .ok r ↔
      rooms_category (from_json_JoinedRoom x) obj "join" = .ok r.join ∧
      rooms_category (from_json_LeftRoom x) obj "leave" = .ok r.leave ∧
      rooms_category (from_json_InvitedRoom x) obj "invite" = .ok r.invite ∧
      rooms_category (from_json_KnockedRoom x) obj "knock" = .ok r.knock := by
  unfold from_json_Rooms
  simp only [bind_ok_iff, pure_ok_iff]
  constructor
  · rintro ⟨j, hj, l, hl, i, hi, k, hk, rfl⟩
    exact ⟨hj, hl, hi, hk⟩
  · rintro ⟨hj, hl, hi, hk⟩
    exact ⟨_, hj, _, hl, _, hi, _, hk, rfl⟩

theorem from_json_Sync_ok_iff (x : Externals) (obj : Json) (r : Sync x) :
    from_json_Sync x obj = .ok r ↔
      Sync_rooms x obj = .ok r.rooms ∧
      Sync_device_lists obj = .ok r.device_lists ∧
      Sync_to_device x obj = .ok r.to_device ∧
      Sync_device_one_time_keys_count x obj = .ok r.device_one_time_keys_count ∧
      Sync_device_unused_fallback_key_types obj = .ok r.device_unused_fallback_key_types ∧
      Sync_presence x obj = .ok r.presence ∧
      field_account_data x obj = .ok r.account_data ∧
      Sync_next_batch obj = .ok r.next_batch := by
  unfold from_json_Sync
  simp only [bind_ok_iff, pure_ok_iff]
  constructor
  · rintro ⟨a1, h1, a2, h2, a3, h3, a4, h4, a5, h5, a6, h6, a7, h7, a8, h8, rfl⟩
    exact ⟨h1, h2, h3, h4, h5, h6, h7, h8⟩
  · rintro ⟨h1, h2, h3, h4, h5, h6, h7, h8⟩
    exact ⟨_, h1, _, h2, _, h3, _, h4, _, h5, _, h6, _, h7, _, h8, rfl⟩

theorem Sync_rooms_ok_cases (x : Externals) (obj : Json) (r : Rooms x)
    (h : Sync_rooms x obj = .ok r) :
    (obj.find? "rooms" = none ∧ r = {}) ∨
      ∃ ro, obj.find? "rooms" = some ro ∧ from_json_Rooms x ro = .ok r := by
  unfold Sync_rooms at h
  cases hf : obj.find? "rooms" with
  | none =>
    have hc : obj.count "rooms" = 0 := (count_eq_zero_iff _ _).mpr hf
    simp only [hc, ne_eq, not_true_eq_false, if_false, pure_ok_iff] at h
    exact Or.inl ⟨rfl, h.symm⟩
  | some ro =>
    have hc : obj.count "rooms" ≠ 0 := (count_ne_zero_iff _ _).mpr ⟨ro, hf⟩
    simp only [hc, ne_eq, not_false_eq_true, if_true, bind_ok_iff, at_ok_iff] at h
    obtain ⟨a, ha, hr⟩ := h
    rw [hf] at ha
    cases ha
    exact Or.inr ⟨ro, rfl, hr⟩

/-- Claim C1.  In a successfully decoded sync response, none of the four room
maps (join, leave, invite, knock) has a key of 256 bytes or more, whatever the
raw document listed. -/
theorem C1_room_keys_below_256 (x : Externals) (obj : Json) (r : Sync x)
    (h : from_json_Sync x obj = .ok r) :
    (∀ k ∈ keys r.rooms.join, ¬ 256 ≤ k.utf8ByteSize) ∧
    (∀ k ∈ keys r.rooms.leave, ¬ 256 ≤ k.utf8ByteSize) ∧
    (∀ k ∈ keys r.rooms.invite, ¬ 256 ≤ k.utf8ByteSize) ∧
    (∀ k ∈ keys r.rooms.knock, ¬ 256 ≤ k.utf8ByteSize) := by
  have hr := ((from_json_Sync_ok_iff x obj r).mp h).1
  rcases Sync_rooms_ok_cases x obj r.rooms hr with ⟨_, hd⟩ | ⟨ro, _, hro⟩
  · rw [hd]
    simp [keys]
  · obtain ⟨hj, hl, hi, hk⟩ := (from_json_Rooms_ok_iff x ro r.rooms).mp hro
    refine ⟨?_, ?_, ?_, ?_⟩
    · intro k hmem
      exact Nat.not_le.mpr (rooms_category_keys _ _ _ _ hj k hmem)
    · intro k hmem
      exact Nat.not_le.mpr (rooms_category_keys _ _ _ _ hl k hmem)
    · intro k hmem
      exact Nat.not_le.mpr (rooms_category_keys _ _ _ _ hi k hmem)
    · intro k hmem
      exact Nat.not_le.mpr (rooms_category_keys _ _ _ _ hk k hmem)

set_option maxRecDepth 100000 in
theorem C1_room_keys_below_256_witness :
    from_json_Sync generic_externals oversized_document =
        .ok { next_batch := "tok1", rooms := { join := [("!a:x", {})] } } ∧
      ∀ k ∈ keys ([("!a:x", {})] : List (String × JoinedRoom generic_externals)),
        ¬ 256 ≤ k.utf8ByteSize :=
  ⟨rfl, (C1_room_keys_below_256 generic_externals oversized_document _ rfl).1⟩

/-! ## Device lists -/

theorem traverse_get_string (cs : List String) :
    traverse Json.get_string (cs.map Json.string) = .ok cs := by
  induction cs with
  | nil => rfl
  | cons c tl ih => simp [traverse, Json.get_string, ih]

theorem erase_invalid_users_eq (users : List String) :
    erase_invalid_users users = users.filter (fun u => decide (u.utf8ByteSize ≤ 255)) := by
  unfold erase_invalid_users
  congr 1
  funext u
  by_cases h : u.utf8ByteSize ≤ 255
  · have h2 : ¬ u.utf8ByteSize > 255 := by omega
    simp [h, h2]
  · have h2 : u.utf8ByteSize > 255 := by omega
    simp [h, h2]

theorem device_field_of_array (obj : Json) (key : String) (cs : List String)
    (h : obj.find? key = some (.array (cs.map .string))) :
    device_list_field obj key =
      .ok (cs.filter (fun u => decide (u.utf8ByteSize ≤ 255))) := by
  have hc : obj.count key ≠ 0 := (count_ne_zero_iff _ _).mpr ⟨_, h⟩
  unfold device_list_field
  rw [if_pos hc, at_of_find _ _ _ h]
  simp [bind, Except.bind, Json.get_string_vector, traverse_get_string, pure, Except.pure,
    erase_invalid_users_eq]

theorem device_field_of_none (obj : Json) (key : String) (h : obj.find? key = none) :
    device_list_field obj key = .ok [] := by
  have hc : obj.count key = 0 := (count_eq_zero_iff _ _).mpr h
  simp [device_list_field, hc, pure, Except.pure]

/-- Claim C2.  When the `changed` (resp. `left`) field of a `device_lists`
object is an array of strings, the decoded `changed` (resp. `left`) sequence is
that array filtered to the ids of at most 255 bytes, order and multiplicity
kept; the two fields are filtered independently, and a document in which each
of them is such an array or is missing decodes. -/
theorem C2_device_lists_filtered (obj : Json) :
    (∀ (cs : List String) (r : DeviceLists), obj.find? "changed" = some (.array (cs.map .string)) →
      from_json_DeviceLists obj = .ok r →
      r.changed = cs.filter (fun u => decide (u.utf8ByteSize ≤ 255))) ∧
    (∀ (ls : List String) (r : DeviceLists), obj.find? "left" = some (.array (ls.map .string)) →
      from_json_DeviceLists obj = .ok r →
      r.left = ls.filter (fun u => decide (u.utf8ByteSize ≤ 255))) ∧
    (∀ cs ls : List String, obj.find? "changed" = some (.array (cs.map .string)) →
      obj.find? "left" = some (.array (ls.map .string)) →
      from_json_DeviceLists obj =
        .ok { changed := cs.filter (fun u => decide (u.utf8ByteSize ≤ 255)),
              left := ls.filter (fun u => decide (u.utf8ByteSize ≤ 255)) }) ∧
    (∀ cs : List String, obj.find? "changed" = some (.array (cs.map .string)) →
      obj.find? "left" = none →
      from_json_DeviceLists obj =
        .ok { changed := cs.filter (fun u => decide (u.utf8ByteSize ≤ 255)), left := [] }) ∧
    (∀ ls : List String, obj.find? "changed" = none →
      obj.find? "left" = some (.array (ls.map .string)) →
      from_json_DeviceLists obj =
        .ok { changed := [], left := ls.filter (fun u => decide (u.utf8ByteSize ≤ 255)) }) := by
  refine ⟨?_, ?_, ?_, ?_, ?_⟩
  · intro cs r hc h
    unfold from_json_DeviceLists at h
    rw [device_field_of_array obj "changed" cs hc] at h
    simp only [bind_ok_iff, pure_ok_iff] at h
    obtain ⟨a, ha, l, _, rfl⟩ := h
    cases ha
    rfl
  · intro ls r hl h
    unfold from_json_DeviceLists at h
    rw [device_field_of_array obj "left" ls hl] at h
    simp only [bind_ok_iff, pure_ok_iff] at h
    obtain ⟨c, _, a, ha, rfl⟩ := h
    cases ha
    rfl
  · intro cs ls hc hl
    unfold from_json_DeviceLists
    rw [device_field_of_array obj "changed" cs hc, device_field_of_array obj "left" ls hl]
    rfl
  · intro cs hc hl
    unfold from_json_DeviceLists
    rw [device_field_of_array obj "changed" cs hc, device_field_of_none obj "left" hl]
    rfl
  · intro ls hc hl
    unfold from_json_DeviceLists
    rw [device_field_of_none obj "changed" hc, device_field_of_array obj "left" ls hl]
    rfl

set_option maxRecDepth 100000 in
theorem C2_device_lists_filtered_witness :
    from_json_DeviceLists example_device_lists =
      .ok { changed := ["@a:x", "@b:x"], left := ["@c:x"] } :=
  (C2_device_lists_filtered example_device_lists).2.2.1
    ["@a:x", id_of_size 256, "@b:x"] [id_of_size 300, "@c:x"] rfl rfl

/-! ## The continuation token -/

theorem missing_next_batch_fails (x : Externals) (obj : Json)
    (h : obj.find? "next_batch" = none) : ∃ e, from_json_Sync x obj = .error e := by
  cases hd : from_json_Sync x obj with
  | error e => exact ⟨e, rfl⟩
  | ok r =>
    have hn := ((from_json_Sync_ok_iff x obj r).mp hd).2.2.2.2.2.2.2
    unfold Sync_next_batch at hn
    obtain ⟨e, he⟩ := at_of_find_none obj "next_batch" h
    rw [he] at hn
    simp [bind, Except.bind] at hn

/-- Claim C3.  A raw document in which `next_batch` is not found (an object
without that key; the lookup also finds nothing in a value that is no object)
never decodes: the result is a decode failure whatever the other fields
hold. -/
theorem C3_missing_next_batch_fails (x : Externals) (obj : Json)
    (h : obj.find? "next_batch" = none) : ∃ e, from_json_Sync x obj = .error e :=
  missing_next_batch_fails x obj h

theorem C3_missing_next_batch_fails_witness :
    Json.find? (.object empty_rooms) "next_batch" = none ∧
      ∃ e, from_json_Sync generic_externals (.object empty_rooms) = .error e :=
  ⟨rfl, C3_missing_next_batch_fails generic_externals (.object empty_rooms) rfl⟩

/-! ## Fields are decoded independently of one another -/

theorem lookup_set_key_self (key : String) (v : Json) (o : List (String × Json)) :
    (set_key key v o).lookup key = some v := by
  induction o with
  | nil => simp [set_key, lookup_cons_self]
  | cons hd tl ih =>
    obtain ⟨a, b⟩ := hd
    unfold set_key
    by_cases h1 : key = a
    · simp only [h1, if_true]
      exact lookup_cons_self a v tl
    · simp only [h1, if_false]
      split
      · exact lookup_cons_self key v _
      · rw [lookup_cons_ne a key b _ h1]
        exact ih

theorem lookup_set_key_ne (key : String) (v : Json) (o : List (String × Json))
    (k' : String) (h : k' ≠ key) : (set_key key v o).lookup k' = o.lookup k' := by
  induction o with
  | nil => simp [set_key, lookup_cons_ne key k' v [] h]
  | cons hd tl ih =>
    obtain ⟨a, b⟩ := hd
    unfold set_key
    by_cases h1 : key = a
    · simp only [h1, if_true]
      subst h1
      rw [lookup_cons_ne key k' v tl h, lookup_cons_ne key k' b tl h]
    · simp only [h1, if_false]
      split
      · rw [lookup_cons_ne key k' v _ h]
      · by_cases h2 : k' = a
        · subst h2
          rw [lookup_cons_self, lookup_cons_self]
        · rw [lookup_cons_ne a k' b _ h2, lookup_cons_ne a k' b _ h2]
          exact ih

theorem same_field_set_key (key : String) (v : Json) (o : List (String × Json))
    (k' : String) (h : k' ≠ key) :
    same_field (.object (set_key key v o)) (.object o) k' := by
  unfold same_field
  simp only [Json.find?, Json.at_, lookup_set_key_ne key v o k' h]
  exact ⟨trivial, trivial⟩

theorem lookup_filter_ne (key : String) (o : List (String × Json)) (k' : String)
    (h : k' ≠ key) :
    (o.filter (fun kv => !(kv.1 == key))).lookup k' = o.lookup k' := by
  induction o with
  | nil => rfl
  | cons hd tl ih =>
    obtain ⟨a, b⟩ := hd
    by_cases h1 : a = key
    · subst h1
      simp only [List.filter_cons, beq_self_eq_true, Bool.not_true, Bool.false_eq_true,
        if_false]
      rw [lookup_cons_ne a k' b tl h]
      exact ih
    · have hb : (a == key) = false := by simpa using h1
      simp only [List.filter_cons, hb, Bool.not_false, if_true]
      by_cases h2 : k' = a
      · subst h2
        rw [lookup_cons_self, lookup_cons_self]
      · rw [lookup_cons_ne a k' b _ h2, lookup_cons_ne a k' b _ h2]
        exact ih

theorem lookup_filter_self (key : String) (o : List (String × Json)) :
    (o.filter (fun kv => !(kv.1 == key))).lookup key = none := by
  induction o with
  | nil => rfl
  | cons hd tl ih =>
    obtain ⟨a, b⟩ := hd
    by_cases h1 : a = key
    · subst h1
      simp only [List.filter_cons, beq_self_eq_true, Bool.not_true, Bool.false_eq_true,
        if_false]
      exact ih
    · have hb : (a == key) = false := by simpa using h1
      simp only [List.filter_cons, hb, Bool.not_false, if_true]
      rw [lookup_cons_ne a key b _ (fun e => h1 e.symm)]
      exact ih

theorem same_field_erase_key (j : Json) (key k' : String) (h : k' ≠ key) :
    same_field (erase_key j key) j k' := by
  unfold same_field
  cases j with
  | object o =>
    simp only [erase_key, Json.find?, Json.at_, lookup_filter_ne key o k' h]
    exact ⟨trivial, trivial⟩
  | _ => exact ⟨rfl, rfl⟩

theorem find_erase_key_self (j : Json) (key : String) :
    (erase_key j key).find? key = none := by
  cases j with
  | object o => simp only [erase_key, Json.find?, lookup_filter_self]
  | _ => rfl

theorem lookup_map_fields (fields : List String) (f : Json → Json)
    (o : List (String × Json)) (k : String) :
    (o.map (fun kv => if kv.1 ∈ fields then (kv.1, f kv.2) else kv)).lookup k =
      (o.lookup k).map (fun v => if k ∈ fields then f v else v) := by
  induction o with
  | nil => rfl
  | cons hd tl ih =>
    obtain ⟨a, b⟩ := hd
    by_cases hk : k = a
    · subst hk
      by_cases hm : k ∈ fields
      · simp only [List.map_cons, hm, if_true, lookup_cons_self, Option.map_some']
      · simp only [List.map_cons, hm, if_false, lookup_cons_self, Option.map_some']
    · by_cases hm : a ∈ fields
      · simp only [List.map_cons, hm, if_true]
        rw [lookup_cons_ne a k _ _ hk, lookup_cons_ne a k _ _ hk]
        exact ih
      · simp only [List.map_cons, hm, if_false]
        rw [lookup_cons_ne a k _ _ hk, lookup_cons_ne a k _ _ hk]
        exact ih

theorem find_map_fields (fields : List String) (f : Json → Json) (j : Json) (k : String) :
    (map_fields fields f j).find? k =
      (j.find? k).map (fun v => if k ∈ fields then f v else v) := by
  cases j with
  | object o => simp only [map_fields, Json.find?, lookup_map_fields]
  | _ => rfl

theorem same_field_map_fields (fields : List String) (f : Json → Json) (j : Json)
    (k : String) (h : k ∉ fields) : same_field (map_fields fields f j) j k := by
  unfold same_field
  cases j with
  | object o =>
    have hl := lookup_map_fields fields f o k
    simp only [h, if_false] at hl
    have hid : (o.lookup k).map (fun v => v) = o.lookup k := by
      cases o.lookup k <;> rfl
    rw [hid] at hl
    simp only [map_fields, Json.find?, Json.at_, hl]
    exact ⟨trivial, trivial⟩
  | _ => exact ⟨rfl, rfl⟩

theorem Sync_rooms_congr (x : Externals) (a b : Json) (h : same_field a b "rooms") :
    Sync_rooms x a = Sync_rooms x b := by
  simp only [Sync_rooms, Json.count, h.1, h.2]

theorem Sync_device_lists_congr (a b : Json) (h : same_field a b "device_lists") :
    Sync_device_lists a = Sync_device_lists b := by
  simp only [Sync_device_lists, Json.count, h.1, h.2]

theorem Sync_to_device_congr (x : Externals) (a b : Json) (h : same_field a b "to_device") :
    Sync_to_device x a = Sync_to_device x b := by
  simp only [Sync_to_device, Json.count, h.1, h.2]

theorem Sync_device_one_time_keys_count_congr (x : Externals) (a b : Json)
    (h : same_field a b "device_one_time_keys_count") :
    Sync_device_one_time_keys_count x a = Sync_device_one_time_keys_count x b := by
  simp only [Sync_device_one_time_keys_count, Json.count, h.1, h.2]

theorem Sync_device_unused_fallback_key_types_congr (a b : Json)
    (h : same_field a b "device_unused_fallback_key_types") :
    Sync_device_unused_fallback_key_types a = Sync_device_unused_fallback_key_types b := by
  simp only [Sync_device_unused_fallback_key_types, h.1]

theorem Sync_presence_congr (x : Externals) (a b : Json) (h : same_field a b "presence") :
    Sync_presence x a = Sync_presence x b := by
  simp only [Sync_presence, Json.count, h.1, h.2]

theorem field_account_data_congr (x : Externals) (a b : Json)
    (h : same_field a b "account_data") :
    field_account_data x a = field_account_data x b := by
  simp only [field_account_data, Json.count, h.1, h.2]

theorem Sync_next_batch_congr (a b : Json) (h : same_field a b "next_batch") :
    Sync_next_batch a = Sync_next_batch b := by
  simp only [Sync_next_batch, h.2]

/-! ## What makes the whole decoding fail -/

theorem Sync_presence_eq (x : Externals) (obj : Json) :
    Sync_presence x obj =
      .ok (match obj.find? "presence" with
        | some p =>
          match p.find? "events" with
          | some events => presence_loop x events.elements
          | none => []
        | none => []) := by
  unfold Sync_presence
  cases hp : obj.find? "presence" with
  | none =>
    have hc : obj.count "presence" = 0 := (count_eq_zero_iff _ _).mpr hp
    simp [hc, pure, Except.pure]
  | some p =>
    have hc : obj.count "presence" ≠ 0 := (count_ne_zero_iff _ _).mpr ⟨p, hp⟩
    rw [if_pos hc, at_of_find _ _ _ hp]
    cases he : p.find? "events" with
    | none => simp [bind, Except.bind, Json.contains, he, pure, Except.pure]
    | some events =>
      simp [bind, Except.bind, Json.contains, he, at_of_find _ _ _ he, pure, Except.pure]

theorem Sync_next_batch_set_key (o : List (String × Json)) (v : Json) :
    Sync_next_batch (.object (set_key "next_batch" v o)) = v.get_string := by
  simp [Sync_next_batch, Json.at_, lookup_set_key_self, bind, Except.bind]

theorem from_json_Sync_set_next_batch (x : Externals) (o : List (String × Json)) (v : Json)
    (r : Sync x) :
    from_json_Sync x (.object (set_key "next_batch" v o)) = .ok r ↔
      Sync_rooms x (.object o) = .ok r.rooms ∧
      Sync_device_lists (.object o) = .ok r.device_lists ∧
      Sync_to_device x (.object o) = .ok r.to_device ∧
      Sync_device_one_time_keys_count x (.object o) = .ok r.device_one_time_keys_count ∧
      Sync_device_unused_fallback_key_types (.object o) =
        .ok r.device_unused_fallback_key_types ∧
      Sync_presence x (.object o) = .ok r.presence ∧
      field_account_data x (.object o) = .ok r.account_data ∧
      v.get_string = .ok r.next_batch := by
  rw [from_json_Sync_ok_iff,
    Sync_rooms_congr x _ _ (same_field_set_key "next_batch" v o "rooms" (by decide)),
    Sync_device_lists_congr _ _ (same_field_set_key "next_batch" v o "device_lists" (by decide)),
    Sync_to_device_congr x _ _ (same_field_set_key "next_batch" v o "to_device" (by decide)),
    Sync_device_one_time_keys_count_congr x _ _
      (same_field_set_key "next_batch" v o "device_one_time_keys_count" (by decide)),
    Sync_device_unused_fallback_key_types_congr _ _
      (same_field_set_key "next_batch" v o "device_unused_fallback_key_types" (by decide)),
    Sync_presence_congr x _ _ (same_field_set_key "next_batch" v o "presence" (by decide)),
    field_account_data_congr x _ _
      (same_field_set_key "next_batch" v o "account_data" (by decide)),
    Sync_next_batch_set_key]

/-- Claim C4, refuted as stated.  The document `{"device_lists":{"changed":"@a:x"}}`
has no `next_batch`; with `"next_batch":"tok1"` added it still fails to decode,
with the `type_error` of the conversion of `changed` to a vector of strings,
for the generic catalogue and for every other one. -/
theorem C4_counterexample :
    Json.find? (.object malformed_device_lists) "next_batch" = none ∧
    set_key "next_batch" (.string "tok1") malformed_device_lists =
      [("device_lists", .object [("changed", .string "@a:x")]),
        ("next_batch", .string "tok1")] ∧
    from_json_Sync generic_externals
        (.object (set_key "next_batch" (.string "tok1") malformed_device_lists)) =
      .error (.type_error 302) ∧
    ∀ x : Externals,
      from_json_Sync x (.object (set_key "next_batch" (.string "tok1") malformed_device_lists)) =
        .error (.type_error 302) :=
  ⟨rfl, rfl, rfl, fun _ => rfl⟩

/-- Claim C4, amended.  For a raw object without `next_batch`, decoding the
same document with a `next_batch` string added succeeds exactly when each of
`rooms`, `device_lists`, `to_device`, `device_one_time_keys_count`,
`device_unused_fallback_key_types` and `account_data` decodes on the original
document (the presence field never fails); the result then carries the added
string.  The original document fails, and so does the document with a
`next_batch` that is no string: these are sufficient conditions of failure,
not the only ones. -/
theorem C4_next_batch_added (x : Externals) (o : List (String × Json)) (t : String)
    (h : Json.find? (.object o) "next_batch" = none) :
    ((∃ r, from_json_Sync x (.object (set_key "next_batch" (.string t) o)) = .ok r) ↔
      ((∃ a, Sync_rooms x (.object o) = .ok a) ∧
       (∃ a, Sync_device_lists (.object o) = .ok a) ∧
       (∃ a, Sync_to_device x (.object o) = .ok a) ∧
       (∃ a, Sync_device_one_time_keys_count x (.object o) = .ok a) ∧
       (∃ a, Sync_device_unused_fallback_key_types (.object o) = .ok a) ∧
       (∃ a, field_account_data x (.object o) = .ok a))) ∧
    (∀ r, from_json_Sync x (.object (set_key "next_batch" (.string t) o)) = .ok r →
      r.next_batch = t) ∧
    (∃ e, from_json_Sync x (.object o) = .error e) ∧
    (∀ v : Json, (∀ s, v ≠ .string s) →
      ∃ e, from_json_Sync x (.object (set_key "next_batch" v o)) = .error e) := by
  refine ⟨⟨?_, ?_⟩, ?_, missing_next_batch_fails x _ h, ?_⟩
  · rintro ⟨r, hr⟩
    obtain ⟨h1, h2, h3, h4, h5, _, h7, _⟩ := (from_json_Sync_set_next_batch x o _ r).mp hr
    exact ⟨⟨_, h1⟩, ⟨_, h2⟩, ⟨_, h3⟩, ⟨_, h4⟩, ⟨_, h5⟩, ⟨_, h7⟩⟩
  · rintro ⟨⟨a1, h1⟩, ⟨a2, h2⟩, ⟨a3, h3⟩, ⟨a4, h4⟩, ⟨a5, h5⟩, ⟨a7, h7⟩⟩
    obtain ⟨a6, h6⟩ : ∃ a, Sync_presence x (.object o) = .ok a := ⟨_, Sync_presence_eq x _⟩
    refine ⟨{ next_batch := t, rooms := a1, to_device := a3, presence := a6,
              device_lists := a2, device_one_time_keys_count := a4,
              device_unused_fallback_key_types := a5, account_data := a7 }, ?_⟩
    rw [from_json_Sync_set_next_batch]
    exact ⟨h1, h2, h3, h4, h5, h6, h7, rfl⟩
  · intro r hr
    have h8 := ((from_json_Sync_set_next_batch x o _ r).mp hr).2.2.2.2.2.2.2
    simp only [Json.get_string, Except.ok.injEq] at h8
    exact h8.symm
  · intro v hv
    cases hd : from_json_Sync x (.object (set_key "next_batch" v o)) with
    | error e => exact ⟨e, rfl⟩
    | ok r =>
      have h8 := ((from_json_Sync_set_next_batch x o _ r).mp hd).2.2.2.2.2.2.2
      cases v with
      | string s => exact absurd rfl (hv s)
      | _ => simp [Json.get_string] at h8

theorem C4_next_batch_added_witness :
    (∃ r, from_json_Sync generic_externals
        (.object (set_key "next_batch" (.string "tok1") empty_rooms)) = .ok r) ∧
      ∃ e, from_json_Sync generic_externals (.object empty_rooms) = .error e :=
  ⟨⟨{ next_batch := "tok1" }, rfl⟩,
    (C4_next_batch_added generic_externals empty_rooms "tok1" rfl).2.2.1⟩

/-! ## Presence -/

theorem presence_loop_eq (x : Externals) (es : List Json) :
    presence_loop x es = es.filterMap (fun e => (x.presence_from_json e).toOption) := by
  induction es with
  | nil => rfl
  | cons e tl ih =>
    unfold presence_loop
    cases h : x.presence_from_json e with
    | error err => simp [List.filterMap_cons, h, Except.toOption, ih]
    | ok a => simp [List.filterMap_cons, h, Except.toOption, ih]

theorem length_filterMap_add {α β : Type} (f : α → Option β) (l : List α) :
    (l.filterMap f).length + (l.filter (fun a => (f a).isNone)).length = l.length := by
  induction l with
  | nil => rfl
  | cons a tl ih =>
    cases h : f a with
    | none =>
      simp only [List.filterMap_cons, h, List.filter_cons, Option.isNone_none, if_true,
        List.length_cons]
      omega
    | some b =>
      simp only [List.filterMap_cons, h, List.filter_cons, Option.isNone_some,
        Bool.false_eq_true, if_false, List.length_cons]
      omega

theorem from_json_Sync_erase_presence (x : Externals) (obj : Json) (ps : List x.PresenceEvent)
    (h : Sync_presence x obj = .ok ps) :
    from_json_Sync x obj =
      (from_json_Sync x (erase_key obj "presence")).map
        (fun r => { r with presence := ps }) := by
  have hq : Sync_presence x (erase_key obj "presence") = .ok [] := by
    rw [Sync_presence_eq, find_erase_key_self]
  unfold from_json_Sync
  rw [Sync_rooms_congr x _ _ (same_field_erase_key obj "presence" "rooms" (by decide)),
    Sync_device_lists_congr _ _ (same_field_erase_key obj "presence" "device_lists" (by decide)),
    Sync_to_device_congr x _ _ (same_field_erase_key obj "presence" "to_device" (by decide)),
    Sync_device_one_time_keys_count_congr x _ _
      (same_field_erase_key obj "presence" "device_one_time_keys_count" (by decide)),
    Sync_device_unused_fallback_key_types_congr _ _
      (same_field_erase_key obj "presence" "device_unused_fallback_key_types" (by decide)),
    field_account_data_congr x _ _
      (same_field_erase_key obj "presence" "account_data" (by decide)),
    Sync_next_batch_congr _ _ (same_field_erase_key obj "presence" "next_batch" (by decide)),
    h, hq]
  cases Sync_rooms x obj with
  | error e => rfl
  | ok a1 =>
  cases Sync_device_lists obj with
  | error e => rfl
  | ok a2 =>
  cases Sync_to_device x obj with
  | error e => rfl
  | ok a3 =>
  cases Sync_device_one_time_keys_count x obj with
  | error e => rfl
  | ok a4 =>
  cases Sync_device_unused_fallback_key_types obj with
  | error e => rfl
  | ok a5 =>
  cases field_account_data x obj with
  | error e => rfl
  | ok a7 =>
  cases Sync_next_batch obj with
  | error e => rfl
  | ok a8 => rfl

/-- Claim C5.  When `presence.events` is an array, the presence step of the
decoder never fails and yields, in order, the decoded values of exactly those
elements whose own decoding succeeds.  The whole document decodes if and only
if it decodes without its `presence` field (same failure otherwise), to the
same response but for the presence sequence; and when exactly one of the N
elements fails to decode, the presence sequence has N-1 elements. -/
theorem C5_presence_fault_isolated (x : Externals) (obj p : Json) (es : List Json)
    (hp : obj.find? "presence" = some p) (he : p.find? "events" = some (.array es)) :
    Sync_presence x obj =
      .ok (es.filterMap (fun e => (x.presence_from_json e).toOption)) ∧
    (∀ r0, from_json_Sync x (erase_key obj "presence") = .ok r0 →
      from_json_Sync x obj =
        .ok { r0 with
          presence := es.filterMap (fun e => (x.presence_from_json e).toOption) }) ∧
    (∀ e, from_json_Sync x (erase_key obj "presence") = .error e →
      from_json_Sync x obj = .error e) ∧
    (∀ r, from_json_Sync x obj = .ok r →
      r.presence = es.filterMap (fun e => (x.presence_from_json e).toOption) ∧
      ((es.filter (fun e => (x.presence_from_json e).toOption.isNone)).length = 1 →
        r.presence.length = es.length - 1)) := by
  have hs : Sync_presence x obj =
      .ok (es.filterMap (fun e => (x.presence_from_json e).toOption)) := by
    rw [Sync_presence_eq, hp]
    simp only [he, Json.elements, presence_loop_eq]
  have hm := from_json_Sync_erase_presence x obj _ hs
  refine ⟨hs, ?_, ?_, ?_⟩
  · intro r0 h0
    rw [hm, h0]
    rfl
  · intro e h0
    rw [hm, h0]
    rfl
  · intro r hr
    have h6 := ((from_json_Sync_ok_iff x obj r).mp hr).2.2.2.2.2.1
    rw [hs] at h6
    simp only [Except.ok.injEq] at h6
    refine ⟨h6.symm, ?_⟩
    intro h1
    have hl := length_filterMap_add (fun e => (x.presence_from_json e).toOption) es
    rw [← h6]
    omega

theorem C5_presence_fault_isolated_witness :
    from_json_Sync generic_externals presence_document =
      .ok { next_batch := "tok1",
            presence := [.object [("type", .string "m.presence")], .object []] } :=
  (C5_presence_fault_isolated generic_externals presence_document
    (.object [("events",
      .array [.object [("type", .string "m.presence")], .number_unsigned 5, .object []])])
    [.object [("type", .string "m.presence")], .number_unsigned 5, .object []]
    rfl rfl).2.1 { next_batch := "tok1" } rfl

/-! ## Unused fallback key types -/

theorem mem_of_lookup {α : Type} (l : List (String × α)) (k : String) (v : α)
    (h : l.lookup k = some v) : (k, v) ∈ l := by
  induction l with
  | nil => simp at h
  | cons hd tl ih =>
    obtain ⟨a, b⟩ := hd
    by_cases hk : k = a
    · subst hk
      rw [lookup_cons_self] at h
      cases h
      exact List.mem_cons_self _ _
    · rw [lookup_cons_ne a k b tl hk] at h
      exact List.mem_cons_of_mem _ (ih h)

theorem rooms_category_contents {α : Type} (get : Json → Except Exn α) (obj : Json)
    (category : String) (r : List (String × α)) (kvs : List (String × Json))
    (h : rooms_category get obj category = .ok r)
    (hf : obj.find? category = some (.object kvs)) :
    (∀ k, k ∈ keys r ↔ k ∈ keys kvs ∧ k.utf8ByteSize < 256) ∧
    (∀ k v, kvs.lookup k = some v → k.utf8ByteSize < 256 →
      ∃ room, get v = .ok room ∧ r.lookup k = some room) := by
  unfold rooms_category at h
  rw [hf] at h
  simp only [Json.items] at h
  have hl := rooms_loop_lookup get kvs [] r h
  have hd := rooms_loop_decodes get kvs [] r h
  have hval : ∀ k v, kvs.lookup k = some v → k.utf8ByteSize < 256 →
      ∃ room, get v = .ok room ∧ r.lookup k = some room := by
    intro k v hv hs
    obtain ⟨room, hroom⟩ := hd (k, v) (mem_of_lookup kvs k v hv) hs
    refine ⟨room, hroom, ?_⟩
    rw [hl k]
    simp [hs, hv, hroom, Except.toOption]
  refine ⟨?_, hval⟩
  intro k
  constructor
  · intro hk
    obtain ⟨a, ha⟩ := (mem_keys_iff_lookup r k).mp hk
    have hk2 := hl k
    rw [ha] at hk2
    by_cases hs : k.utf8ByteSize < 256
    · refine ⟨?_, hs⟩
      cases hv : kvs.lookup k with
      | none => simp [hs, hv] at hk2
      | some v => exact mem_keys_of_lookup kvs k v hv
    · simp [hs] at hk2
  · rintro ⟨hk, hs⟩
    obtain ⟨v, hv⟩ := (mem_keys_iff_lookup kvs k).mp hk
    obtain ⟨room, _, hroom⟩ := hval k v hv hs
    exact mem_keys_of_lookup r k room hroom

theorem rooms_category_succeeds {α : Type} (get : Json → Except Exn α) (obj : Json)
    (category : String) (h : decodable_category get obj category) :
    ∃ r, rooms_category get obj category = .ok r := by
  unfold rooms_category
  rcases h with hn | ⟨kvs, hf, hd⟩
  · rw [hn]
    exact ⟨[], rfl⟩
  · rw [hf]
    exact rooms_loop_succeeds get kvs [] hd

theorem size_id_of_size (n : Nat) : (id_of_size n).utf8ByteSize = n := by
  unfold id_of_size
  induction n with
  | zero => rfl
  | succ k ih =>
    rw [List.replicate_succ]
    simp only [String.utf8ByteSize, String.utf8ByteSize.go] at ih ⊢
    rw [ih]
    rfl

/-- Claim C7.  When decoding a `rooms` value succeeds, then for each category
(join, leave, invite, knock) whose raw value is an object, the keys of the
resulting map are exactly the raw keys of fewer than 256 bytes, and each such
key is bound to the result of decoding its own raw value with the decoder of
that category.  Decoding does succeed when every category is missing or is an
object whose entries with a key of fewer than 256 bytes are all decodable. -/
theorem C7_room_map_contents (x : Externals) (obj : Json) :
    (∀ r, from_json_Rooms x obj = .ok r →
      (∀ kvs, obj.find? "join" = some (.object kvs) →
        (∀ k, k ∈ keys r.join ↔ k ∈ keys kvs ∧ k.utf8ByteSize < 256) ∧
        (∀ k v, kvs.lookup k = some v → k.utf8ByteSize < 256 →
          ∃ room, from_json_JoinedRoom x v = .ok room ∧ r.join.lookup k = some room)) ∧
      (∀ kvs, obj.find? "leave" = some (.object kvs) →
        (∀ k, k ∈ keys r.leave ↔ k ∈ keys kvs ∧ k.utf8ByteSize < 256) ∧
        (∀ k v, kvs.lookup k = some v → k.utf8ByteSize < 256 →
          ∃ room, from_json_LeftRoom x v = .ok room ∧ r.leave.lookup k = some room)) ∧
      (∀ kvs, obj.find? "invite" = some (.object kvs) →
        (∀ k, k ∈ keys r.invite ↔ k ∈ keys kvs ∧ k.utf8ByteSize < 256) ∧
        (∀ k v, kvs.lookup k = some v → k.utf8ByteSize < 256 →
          ∃ room, from_json_InvitedRoom x v = .ok room ∧ r.invite.lookup k = some room)) ∧
      (∀ kvs, obj.find? "knock" = some (.object kvs) →
        (∀ k, k ∈ keys r.knock ↔ k ∈ keys kvs ∧ k.utf8ByteSize < 256) ∧
        (∀ k v, kvs.lookup k = some v → k.utf8ByteSize < 256 →
          ∃ room, from_json_KnockedRoom x v = .ok room ∧ r.knock.lookup k = some room))) ∧
    (decodable_category (from_json_JoinedRoom x) obj "join" →
      decodable_category (from_json_LeftRoom x) obj "leave" →
      decodable_category (from_json_InvitedRoom x) obj "invite" →
      decodable_category (from_json_KnockedRoom x) obj "knock" →
      ∃ r, from_json_Rooms x obj = .ok r) := by
  constructor
  · intro r h
    obtain ⟨hj, hl, hi, hk⟩ := (from_json_Rooms_ok_iff x obj r).mp h
    exact ⟨fun kvs hf => rooms_category_contents _ obj "join" r.join kvs hj hf,
      fun kvs hf => rooms_category_contents _ obj "leave" r.leave kvs hl hf,
      fun kvs hf => rooms_category_contents _ obj "invite" r.invite kvs hi hf,
      fun kvs hf => rooms_category_contents _ obj "knock" r.knock kvs hk hf⟩
  · intro dj dl di dk
    obtain ⟨j, hj⟩ := rooms_category_succeeds _ obj "join" dj
    obtain ⟨l, hl⟩ := rooms_category_succeeds _ obj "leave" dl
    obtain ⟨i, hi⟩ := rooms_category_succeeds _ obj "invite" di
    obtain ⟨k, hk⟩ := rooms_category_succeeds _ obj "knock" dk
    exact ⟨{ join := j, leave := l, invite := i, knock := k },
      (from_json_Rooms_ok_iff x obj _).mpr ⟨hj, hl, hi, hk⟩⟩

set_option maxRecDepth 100000 in
theorem C7_room_map_contents_witness :
    from_json_Rooms generic_externals boundary_rooms =
        .ok { join := [(id_of_size 255, {})] } ∧
      id_of_size 255 ∈ keys ([(id_of_size 255, {})] :
          List (String × JoinedRoom generic_externals)) ∧
      ¬ id_of_size 256 ∈ keys ([(id_of_size 255, {})] :
          List (String × JoinedRoom generic_externals)) :=
  ⟨rfl,
    ((((C7_room_map_contents generic_externals boundary_rooms).1
      { join := [(id_of_size 255, {})] } rfl).1 _ rfl).1 (id_of_size 255)).mpr
      ⟨List.mem_cons_self _ _, (by rw [size_id_of_size]; omega)⟩,
    fun hmem => absurd
      (((((C7_room_map_contents generic_externals boundary_rooms).1
        { join := [(id_of_size 255, {})] } rfl).1 _ rfl).1 (id_of_size 256)).mp hmem).2
      (by rw [size_id_of_size]; omega)⟩

/-! ## Oversized room ids -/

theorem Sync_rooms_of_find (x : Externals) (obj ro : Json)
    (h : obj.find? "rooms" = some ro) : Sync_rooms x obj = from_json_Rooms x ro := by
  have hc : obj.count "rooms" ≠ 0 := (count_ne_zero_iff _ _).mpr ⟨ro, h⟩
  unfold Sync_rooms
  rw [if_pos hc, at_of_find _ _ _ h]
  rfl

/-- Claim C9.  With a timeline parser that maps the empty array to the empty
sequence, the document
`{"next_batch":"tok1","rooms":{"join":{"!a:x":{"timeline":{"events":[],"limited":true,"prev_batch":"p1"}}}}}`
decodes to the response with `next_batch` `tok1`, exactly one joined room,
keyed `!a:x`, whose timeline is limited, has `prev_batch` `p1` and no events,
and with empty leave, invite and knock maps. -/
theorem C9_example_document (x : Externals)
    (h : x.parse_timeline_events (.array []) = .ok []) :
    from_json_Sync x example_document =
      .ok { next_batch := "tok1",
            rooms := { join := [("!a:x",
                         { timeline := { events := [], prev_batch := "p1", limited := true } })],
                       leave := [], invite := [], knock := [] } } := by
  have ht : from_json_Timeline x example_timeline =
      .ok { events := [], prev_batch := "p1", limited := true } := by
    have e : from_json_Timeline x example_timeline =
        (x.parse_timeline_events (.array [])).bind
          (fun events => .ok { events := events, prev_batch := "p1", limited := true }) := rfl
    rw [e, h]
    rfl
  have hj : from_json_JoinedRoom x example_room =
      .ok { timeline := { events := [], prev_batch := "p1", limited := true } } := by
    have e : from_json_JoinedRoom x example_room =
        (from_json_Timeline x example_timeline).bind
          (fun timeline => .ok { timeline := timeline }) := rfl
    rw [e, ht]
    rfl
  have hjoin : rooms_category (from_json_JoinedRoom x) example_rooms "join" =
      .ok [("!a:x", { timeline := { events := [], prev_batch := "p1", limited := true } })] := by
    show rooms_loop (from_json_JoinedRoom x) [("!a:x", example_room)] [] = _
    unfold rooms_loop
    rw [if_pos (by decide : "!a:x".utf8ByteSize < 256), hj]
    rfl
  have hrooms : from_json_Rooms x example_rooms =
      .ok { join := [("!a:x",
        { timeline := { events := [], prev_batch := "p1", limited := true } })] } :=
    (from_json_Rooms_ok_iff x example_rooms _).mpr ⟨hjoin, rfl, rfl, rfl⟩
  exact (from_json_Sync_ok_iff x example_document _).mpr
    ⟨hrooms, rfl, rfl, rfl, rfl, rfl, rfl, rfl⟩

theorem C9_example_document_witness :
    from_json_Sync generic_externals example_document =
      .ok { next_batch := "tok1",
            rooms := { join := [("!a:x",
                         { timeline := { events := [], prev_batch := "p1", limited := true } })],
                       leave := [], invite := [], knock := [] } } :=
  C9_example_document generic_externals rfl

/-! ## The name of an invited room -/

theorem foldl_name_step_fst (st : List StrippedEvents) (acc : String × String) :
    (st.foldl name_step acc).1 = (last_room_name st).getD acc.1 := by
  induction st generalizing acc with
  | nil => rfl
  | cons e tl ih =>
    rw [List.foldl_cons, ih]
    cases e with
    | Name n => simp [last_room_name, name_step]
    | Member d a =>
      simp only [last_room_name, name_step]
      split <;> rfl
    | Avatar u => rfl
    | Other ty => rfl

theorem last_room_name_mem (st : List StrippedEvents) (n : String)
    (h : last_room_name st = some n) : StrippedEvents.Name n ∈ st := by
  induction st with
  | nil => simp [last_room_name] at h
  | cons e tl ih =>
    cases e with
    | Name m =>
      simp only [last_room_name, Option.some.injEq] at h
      cases hl : last_room_name tl with
      | some k =>
        rw [hl] at h
        simp only [Option.getD_some] at h
        subst h
        exact List.mem_cons_of_mem _ (ih hl)
      | none =>
        rw [hl] at h
        simp only [Option.getD_none] at h
        subst h
        exact List.mem_cons_self _ _
    | Member d a => exact List.mem_cons_of_mem _ (ih (by simpa [last_room_name] using h))
    | Avatar u => exact List.mem_cons_of_mem _ (ih (by simpa [last_room_name] using h))
    | Other ty => exact List.mem_cons_of_mem _ (ih (by simpa [last_room_name] using h))

/-- Claim C10, refuted as stated.  The preview state
`[Name(name=""), Member(display_name="Bob")]` contains a room-name event, yet
`name()` returns `Bob`, which is the name content of no room-name event of the
sequence: an empty room name does not override the membership fallback. -/
theorem C10_counterexample :
    (∃ n, StrippedEvents.Name n ∈ [StrippedEvents.Name "", .Member "Bob" ""]) ∧
    InvitedRoom.name { invite_state := [.Name "", .Member "Bob" ""] } = "Bob" ∧
    ¬ StrippedEvents.Name
        (InvitedRoom.name { invite_state := [.Name "", .Member "Bob" ""] }) ∈
      [StrippedEvents.Name "", .Member "Bob" ""] :=
  ⟨⟨"", by decide⟩, by decide, by decide⟩

/-- Claim C10, amended.  For every invite preview state whose last room-name
event has a non-empty name, `name()` returns that name, which is the name
content of a room-name event of the sequence, wherever the membership events
stand; `[Member(display_name="Bob"), Name(name="Team")]` yields `Team`. -/
theorem C10_room_name_overrides (room : InvitedRoom) (n : String)
    (h : last_room_name room.invite_state = some n) (hn : n ≠ "") :
    room.name = n ∧ StrippedEvents.Name room.name ∈ room.invite_state ∧
      InvitedRoom.name { invite_state := [.Member "Bob" "", .Name "Team"] } = "Team" := by
  have h1 : room.name = n := by
    unfold InvitedRoom.name
    simp only [foldl_name_step_fst, h, Option.getD_some]
    rw [if_neg hn]
  refine ⟨h1, ?_, by decide⟩
  rw [h1]
  exact last_room_name_mem _ _ h

theorem C10_room_name_overrides_witness :
    InvitedRoom.name { invite_state := [.Member "Bob" "", .Name "Team", .Member "Eve" ""] } =
      "Team" :=
  (C10_room_name_overrides { invite_state := [.Member "Bob" "", .Name "Team", .Member "Eve" ""] }
    "Team" rfl (by decide)).1

theorem last_room_name_eq (st : List StrippedEvents) :
    last_room_name st = (room_names st).getLast? := by
  induction st with
  | nil => rfl
  | cons e tl ih =>
    cases e with
    | Name n =>
      simp only [last_room_name, room_names, List.filterMap_cons, List.getLast?_cons]
      rw [ih]
      rfl
    | Member d a => simpa [last_room_name, room_names, List.filterMap_cons] using ih
    | Avatar u => simpa [last_room_name, room_names, List.filterMap_cons] using ih
    | Other ty => simpa [last_room_name, room_names, List.filterMap_cons] using ih

theorem foldl_name_step_snd (st : List StrippedEvents) (acc : String × String) :
    (st.foldl name_step acc).2 =
      if acc.2 = "" then ((member_display_names st).find? (fun d => d != "")).getD ""
      else acc.2 := by
  induction st generalizing acc with
  | nil =>
    by_cases h : acc.2 = ""
    · simp [h, member_display_names]
    · simp [h]
  | cons e tl ih =>
    rw [List.foldl_cons, ih]
    cases e with
    | Name n => simp [name_step, member_display_names, List.filterMap_cons]
    | Member d a =>
      by_cases h : acc.2 = ""
      · by_cases hd : d = ""
        · simp [name_step, member_display_names, List.filterMap_cons, h, hd]
        · simp [name_step, member_display_names, List.filterMap_cons, h, hd]
      · simp [name_step, member_display_names, List.filterMap_cons, h]
    | Avatar u => simp [name_step, member_display_names, List.filterMap_cons]
    | Other ty => simp [name_step, member_display_names, List.filterMap_cons]

theorem name_eq_reference (room : InvitedRoom) :
    room.name = name_reference room.invite_state := by
  unfold InvitedRoom.name name_reference
  simp only [foldl_name_step_fst, foldl_name_step_snd, last_room_name_eq]
  by_cases h : (room_names room.invite_state).getLast?.getD "" = ""
  · simp [h]
  · simp [h]

theorem room_names_nil_of_no_name (st : List StrippedEvents)
    (h : ∀ n, StrippedEvents.Name n ∉ st) : room_names st = [] := by
  induction st with
  | nil => rfl
  | cons e tl ih =>
    have htl : ∀ n, StrippedEvents.Name n ∉ tl :=
      fun n hn => h n (List.mem_cons_of_mem _ hn)
    cases e with
    | Name n => exact absurd (List.mem_cons_self _ _) (h n)
    | Member d a => simpa [room_names, List.filterMap_cons] using ih htl
    | Avatar u => simpa [room_names, List.filterMap_cons] using ih htl
    | Other ty => simpa [room_names, List.filterMap_cons] using ih htl

/-- Claim C11, refuted as stated.  The preview state
`[Member(display_name=""), Member(display_name="Bob")]` contains no room-name
event and its first membership event has an empty display name, yet `name()`
returns `Bob`: a later membership event does overwrite an empty fallback. -/
theorem C11_counterexample :
    (∀ n, StrippedEvents.Name n ∉ [StrippedEvents.Member "" "", .Member "Bob" ""]) ∧
    (member_display_names [.Member "" "", .Member "Bob" ""]).head? = some "" ∧
    InvitedRoom.name { invite_state := [.Member "" "", .Member "Bob" ""] } = "Bob" :=
  ⟨fun n h => by simp at h, by decide, by decide⟩

/-- Claim C11, amended.  For every invite preview state that contains no
room-name event, `name()` returns the display name of the first membership
event, in document order, whose display name is non-empty (later membership
events never overwrite it), and the empty string when there is no such event,
in particular when there is no membership event; `[Member(display_name="Bob")]`
yields `Bob`. -/
theorem C11_member_fallback (room : InvitedRoom)
    (h : ∀ n, StrippedEvents.Name n ∉ room.invite_state) :
    room.name =
      ((member_display_names room.invite_state).find? (fun d => d != "")).getD "" ∧
    (member_display_names room.invite_state = [] → room.name = "") ∧
    (∀ d rest, member_display_names room.invite_state = d :: rest → d ≠ "" →
      room.name = d) ∧
    InvitedRoom.name { invite_state := [.Member "Bob" ""] } = "Bob" := by
  have h1 : room.name =
      ((member_display_names room.invite_state).find? (fun d => d != "")).getD "" := by
    rw [name_eq_reference]
    unfold name_reference
    simp [room_names_nil_of_no_name _ h]
  refine ⟨h1, ?_, ?_, by decide⟩
  · intro hm
    rw [h1, hm]
    rfl
  · intro d rest hm hd
    rw [h1, hm]
    simp [hd]

theorem C11_member_fallback_witness :
    InvitedRoom.name { invite_state :=
      [.Member "" "", .Other "m.room.topic", .Member "Bob" "", .Member "Eve" ""] } = "Bob" :=
  (C11_member_fallback { invite_state :=
      [.Member "" "", .Other "m.room.topic", .Member "Bob" "", .Member "Eve" ""] }
    (fun n h => by simp at h)).1

theorem filterMap_filter_keep {α β : Type} (f : α → Option β) (p : α → Bool) (l : List α)
    (h : ∀ a, p a = false → f a = none) : (l.filter p).filterMap f = l.filterMap f := by
  induction l with
  | nil => rfl
  | cons a tl ih =>
    cases hp : p a with
    | true => simp [List.filter_cons, hp, List.filterMap_cons, ih]
    | false => simp [List.filter_cons, hp, List.filterMap_cons, ih, h a hp]

/-- Claim C15.  For every invite preview state, `name()` equals the reference:
the name content of the last room-name event when it is non-empty, otherwise
the display name of the first membership event whose display name is
non-empty, otherwise the empty string.  Events of any other variant do not
influence the result: removing them leaves `name()` unchanged. -/
theorem C15_name_reference (room : InvitedRoom) :
    room.name = name_reference room.invite_state ∧
    InvitedRoom.name
        { invite_state := room.invite_state.filter (fun e => is_name e || is_member e) } =
      room.name := by
  refine ⟨name_eq_reference room, ?_⟩
  rw [name_eq_reference, name_eq_reference]
  unfold name_reference room_names member_display_names
  rw [filterMap_filter_keep _ _ room.invite_state, filterMap_filter_keep _ _ room.invite_state]
  · intro a ha
    cases a <;> simp_all [is_name, is_member]
  · intro a ha
    cases a <;> simp_all [is_name, is_member]

theorem C15_name_reference_witness :
    InvitedRoom.name { invite_state :=
        [.Member "Bob" "", .Other "m.room.topic", .Name "Team", .Name "", .Avatar "mxc://a"] } =
      name_reference
        [.Member "Bob" "", .Other "m.room.topic", .Name "Team", .Name "", .Avatar "mxc://a"] ∧
    name_reference
        [.Member "Bob" "", .Other "m.room.topic", .Name "Team", .Name "", .Avatar "mxc://a"] =
      "Bob" :=
  ⟨(C15_name_reference { invite_state :=
      [.Member "Bob" "", .Other "m.room.topic", .Name "Team", .Name "", .Avatar "mxc://a"] }).1,
    by decide⟩

/-! ## The avatar of an invited room -/

theorem foldl_avatar_step_fst (st : List StrippedEvents) (acc : String × String) :
    (st.foldl avatar_step acc).1 = (room_avatar_urls st).getLast?.getD acc.1 := by
  induction st generalizing acc with
  | nil => rfl
  | cons e tl ih =>
    rw [List.foldl_cons, ih]
    cases e with
    | Name n => simp [avatar_step, room_avatar_urls, List.filterMap_cons]
    | Member d a =>
      by_cases h : acc.2 = ""
      · simp [avatar_step, room_avatar_urls, List.filterMap_cons, h]
      · simp [avatar_step, room_avatar_urls, List.filterMap_cons, h]
    | Avatar u =>
      simp [avatar_step, room_avatar_urls, List.filterMap_cons, List.getLast?_cons]
    | Other ty => simp [avatar_step, room_avatar_urls, List.filterMap_cons]

theorem foldl_avatar_step_snd (st : List StrippedEvents) (acc : String × String) :
    (st.foldl avatar_step acc).2 =
      if acc.2 = "" then ((member_avatar_urls st).find? (fun a => a != "")).getD ""
      else acc.2 := by
  induction st generalizing acc with
  | nil =>
    by_cases h : acc.2 = ""
    · simp [h, member_avatar_urls]
    · simp [h]
  | cons e tl ih =>
    rw [List.foldl_cons, ih]
    cases e with
    | Name n => simp [avatar_step, member_avatar_urls, List.filterMap_cons]
    | Member d a =>
      by_cases h : acc.2 = ""
      · by_cases hd : a = ""
        · simp [avatar_step, member_avatar_urls, List.filterMap_cons, h, hd]
        · simp [avatar_step, member_avatar_urls, List.filterMap_cons, h, hd]
      · simp [avatar_step, member_avatar_urls, List.filterMap_cons, h]
    | Avatar u => simp [avatar_step, member_avatar_urls, List.filterMap_cons]
    | Other ty => simp [avatar_step, member_avatar_urls, List.filterMap_cons]

theorem avatar_eq_reference (room : InvitedRoom) :
    room.avatar = avatar_reference room.invite_state := by
  unfold InvitedRoom.avatar avatar_reference
  simp only [foldl_avatar_step_fst, foldl_avatar_step_snd]
  by_cases h : (room_avatar_urls room.invite_state).getLast?.getD "" = ""
  · simp [h]
  · simp [h]

theorem room_avatar_urls_filter (st : List StrippedEvents) :
    room_avatar_urls (st.filter (fun e => !is_member e)) = room_avatar_urls st := by
  unfold room_avatar_urls
  apply filterMap_filter_keep
  intro a ha
  cases a <;> simp_all [is_member]

/-- Claim C16.  For every invite preview state, `avatar()` equals the
reference: the url of the last room-avatar event when that url is non-empty,
otherwise the avatar url of the first membership event whose avatar url is
non-empty, otherwise the empty string.  Consequently, when the last
room-avatar event has a non-empty url, any preview state that differs only in
its membership events (reordered, added or removed) has the same avatar. -/
theorem C16_avatar_reference (room : InvitedRoom) :
    room.avatar = avatar_reference room.invite_state ∧
    (∀ st' : List StrippedEvents,
      (room_avatar_urls room.invite_state).getLast?.getD "" ≠ "" →
      st'.filter (fun e => !is_member e) =
        room.invite_state.filter (fun e => !is_member e) →
      InvitedRoom.avatar { invite_state := st' } = room.avatar) := by
  refine ⟨avatar_eq_reference room, ?_⟩
  intro st' hne hsame
  have hu : room_avatar_urls st' = room_avatar_urls room.invite_state := by
    rw [← room_avatar_urls_filter st', ← room_avatar_urls_filter room.invite_state, hsame]
  rw [avatar_eq_reference, avatar_eq_reference]
  unfold avatar_reference
  simp only [hu, hne, ne_eq, not_false_eq_true, if_true]

theorem C16_avatar_reference_witness :
    InvitedRoom.avatar { invite_state :=
        [.Member "Eve" "mxc://eve", .Member "Bob" "mxc://bob", .Avatar "mxc://room"] } =
      InvitedRoom.avatar { invite_state := [.Avatar "mxc://room", .Member "Bob" "mxc://bob"] } :=
  (C16_avatar_reference { invite_state := [.Avatar "mxc://room", .Member "Bob" "mxc://bob"] }).2
    [.Member "Eve" "mxc://eve", .Member "Bob" "mxc://bob", .Avatar "mxc://room"]
    (by decide) (by decide)

/-! ## The document that holds only the continuation token -/

/-- Claim C13.  For every string `t`, the document `{"next_batch": t}` decodes
to the response with `next_batch` equal to `t` and every other field at its
default: four empty room maps, empty changed and left device lists, no
to-device events, empty one-time-key counts, absent unused fallback key types,
empty presence and empty account data. -/
theorem C13_only_next_batch (x : Externals) (t : String) :
    from_json_Sync x (.object [("next_batch", .string t)]) = .ok { next_batch := t } ∧
    (∀ r, from_json_Sync x (.object [("next_batch", .string t)]) = .ok r →
      r.next_batch = t ∧
      r.rooms.join = [] ∧ r.rooms.leave = [] ∧ r.rooms.invite = [] ∧ r.rooms.knock = [] ∧
      r.device_lists.changed = [] ∧ r.device_lists.left = [] ∧
      r.to_device.events = [] ∧
      r.device_one_time_keys_count = [] ∧
      r.device_unused_fallback_key_types = none ∧
      r.presence = [] ∧
      r.account_data.events = []) := by
  have h : from_json_Sync x (.object [("next_batch", .string t)]) =
      .ok { next_batch := t } := rfl
  refine ⟨h, ?_⟩
  intro r hr
  rw [h] at hr
  simp only [Except.ok.injEq] at hr
  subst hr
  exact ⟨rfl, rfl, rfl, rfl, rfl, rfl, rfl, rfl, rfl, rfl, rfl, rfl⟩

theorem C13_only_next_batch_witness :
    from_json_Sync generic_externals (.object [("next_batch", .string "s72594_4483_1934")]) =
      .ok { next_batch := "s72594_4483_1934" } :=
  (C13_only_next_batch generic_externals "s72594_4483_1934").1

/-! ## The fields of a timeline -/

theorem value_object {α : Type} (o : List (String × Json)) (key : String)
    (get : Json → Except Exn α) (dflt : α) :
    Json.value (.object o) key get dflt =
      match o.lookup key with
      | some v => get v
      | none => .ok dflt := rfl

theorem from_json_Timeline_ok_iff (x : Externals) (obj : Json) (tl : Timeline x) :
    from_json_Timeline x obj = .ok tl ↔
      obj.value "prev_batch" Json.get_string "" = .ok tl.prev_batch ∧
      obj.value "limited" Json.get_bool false = .ok tl.limited ∧
      ∃ ev, obj.find? "events" = some ev ∧ x.parse_timeline_events ev = .ok tl.events := by
  unfold from_json_Timeline
  simp only [bind_ok_iff, pure_ok_iff, at_ok_iff]
  constructor
  · rintro ⟨pb, hpb, lim, hlim, ev, hev, es, hes, rfl⟩
    exact ⟨hpb, hlim, ev, hev, hes⟩
  · rintro ⟨hpb, hlim, ev, hev, hes⟩
    exact ⟨_, hpb, _, hlim, ev, hev, _, hes, rfl⟩

/-- Claim C14.  A timeline object whose `prev_batch`, when present, is a
string, whose `limited`, when present, is a boolean, and whose `events` decode,
decodes; the decoded `prev_batch` is the raw string when the key is present and
the empty string otherwise, `limited` is the raw boolean when present and false
otherwise, and `events` is the timeline-collection decode of the raw `events`.
Each decoded field is determined by its own raw key alone. -/
theorem C14_timeline_fields (x : Externals) (o : List (String × Json)) :
    (∀ ev es, o.lookup "events" = some ev → x.parse_timeline_events ev = .ok es →
      (o.lookup "prev_batch" = none ∨ ∃ s, o.lookup "prev_batch" = some (.string s)) →
      (o.lookup "limited" = none ∨ ∃ b, o.lookup "limited" = some (.boolean b)) →
      ∃ tl, from_json_Timeline x (.object o) = .ok tl) ∧
    (∀ tl, from_json_Timeline x (.object o) = .ok tl →
      (∀ s, o.lookup "prev_batch" = some (.string s) → tl.prev_batch = s) ∧
      (o.lookup "prev_batch" = none → tl.prev_batch = "") ∧
      (∀ b, o.lookup "limited" = some (.boolean b) → tl.limited = b) ∧
      (o.lookup "limited" = none → tl.limited = false) ∧
      (∃ ev, o.lookup "events" = some ev ∧ x.parse_timeline_events ev = .ok tl.events)) ∧
    (∀ o' tl tl', from_json_Timeline x (.object o) = .ok tl →
      from_json_Timeline x (.object o') = .ok tl' →
      (o.lookup "prev_batch" = o'.lookup "prev_batch" → tl.prev_batch = tl'.prev_batch) ∧
      (o.lookup "limited" = o'.lookup "limited" → tl.limited = tl'.limited) ∧
      (o.lookup "events" = o'.lookup "events" → tl.events = tl'.events)) := by
  refine ⟨?_, ?_, ?_⟩
  · intro ev es hev hes hpb hlim
    obtain ⟨pb, hpb'⟩ : ∃ pb, Json.value (.object o) "prev_batch" Json.get_string "" =
        .ok pb := by
      rw [value_object]
      rcases hpb with h | ⟨s, h⟩
      · rw [h]
        exact ⟨"", rfl⟩
      · rw [h]
        exact ⟨s, rfl⟩
    obtain ⟨lim, hlim'⟩ : ∃ lim, Json.value (.object o) "limited" Json.get_bool false =
        .ok lim := by
      rw [value_object]
      rcases hlim with h | ⟨b, h⟩
      · rw [h]
        exact ⟨false, rfl⟩
      · rw [h]
        exact ⟨b, rfl⟩
    exact ⟨{ events := es, prev_batch := pb, limited := lim },
      (from_json_Timeline_ok_iff x _ _).mpr ⟨hpb', hlim', ev, hev, hes⟩⟩
  · intro tl h
    obtain ⟨hpb, hlim, ev, hev, hes⟩ := (from_json_Timeline_ok_iff x _ tl).mp h
    rw [value_object] at hpb hlim
    refine ⟨?_, ?_, ?_, ?_, ev, hev, hes⟩
    · intro s hs
      rw [hs] at hpb
      simp only [Json.get_string, Except.ok.injEq] at hpb
      exact hpb.symm
    · intro hn
      rw [hn] at hpb
      simp only [Except.ok.injEq] at hpb
      exact hpb.symm
    · intro b hb
      rw [hb] at hlim
      simp only [Json.get_bool, Except.ok.injEq] at hlim
      exact hlim.symm
    · intro hn
      rw [hn] at hlim
      simp only [Except.ok.injEq] at hlim
      exact hlim.symm
  · intro o' tl tl' h h'
    obtain ⟨hpb, hlim, ev, hev, hes⟩ := (from_json_Timeline_ok_iff x _ tl).mp h
    obtain ⟨hpb', hlim', ev', hev', hes'⟩ := (from_json_Timeline_ok_iff x _ tl').mp h'
    rw [value_object] at hpb hlim hpb' hlim'
    simp only [Json.find?] at hev hev'
    refine ⟨?_, ?_, ?_⟩
    · intro he
      rw [he, hpb'] at hpb
      simp only [Except.ok.injEq] at hpb
      exact hpb.symm
    · intro he
      rw [he, hlim'] at hlim
      simp only [Except.ok.injEq] at hlim
      exact hlim.symm
    · intro he
      rw [he, hev'] at hev
      simp only [Option.some.injEq] at hev
      subst hev
      rw [hes'] at hes
      simp only [Except.ok.injEq] at hes
      exact hes.symm

theorem C14_timeline_fields_witness :
    from_json_Timeline generic_externals (.object timeline_without_prev_batch) =
        .ok { events := [], prev_batch := "", limited := true } ∧
      ∃ tl, from_json_Timeline generic_externals (.object timeline_without_prev_batch) =
        .ok tl :=
  ⟨rfl, (C14_timeline_fields generic_externals timeline_without_prev_batch).1
    (.array []) [] rfl rfl (Or.inl rfl) (Or.inr ⟨true, rfl⟩)⟩

/-! ## Absent fields -/

theorem Sync_rooms_absent (x : Externals) (obj : Json) (h : obj.find? "rooms" = none) :
    Sync_rooms x obj = .ok {} := by
  have hc : obj.count "rooms" = 0 := (count_eq_zero_iff _ _).mpr h
  simp [Sync_rooms, hc, pure, Except.pure]

theorem Sync_device_lists_absent (obj : Json) (h : obj.find? "device_lists" = none) :
    Sync_device_lists obj = .ok {} := by
  have hc : obj.count "device_lists" = 0 := (count_eq_zero_iff _ _).mpr h
  simp [Sync_device_lists, hc, pure, Except.pure]

theorem from_json_State_without_events (x : Externals) (o : List (String × Json))
    (h : o.lookup "events" = none) :
    from_json_State x (.object o) = .error (.out_of_range 403) := by
  simp [from_json_State, Json.at_, h, bind, Except.bind]

theorem from_json_Timeline_without_events (x : Externals) (o : List (String × Json))
    (h : o.lookup "events" = none) : ∃ e, from_json_Timeline x (.object o) = .error e := by
  cases hd : from_json_Timeline x (.object o) with
  | error e => exact ⟨e, rfl⟩
  | ok tl =>
    obtain ⟨_, _, ev, hev, _⟩ := (from_json_Timeline_ok_iff x _ tl).mp hd
    simp only [Json.find?] at hev
    rw [h] at hev
    cases hev

/-- Claim C12, refuted as stated.  With a string `next_batch`, a joined room
whose `timeline` object has no `events` key, and a left room whose `state`
object has no `events` key, each make the whole decoding fail with the
`out_of_range` of `obj.at("events")`, whatever the event parsers are. -/
theorem C12_counterexample :
    from_json_Sync generic_externals timeline_without_events_document =
      .error (.out_of_range 403) ∧
    from_json_Sync generic_externals state_without_events_document =
      .error (.out_of_range 403) ∧
    (∀ x : Externals,
      from_json_Sync x timeline_without_events_document = .error (.out_of_range 403) ∧
      from_json_Sync x state_without_events_document = .error (.out_of_range 403)) :=
  ⟨rfl, rfl, fun _ => ⟨rfl, rfl⟩⟩

/-! ## Removing the records that the validators drop -/

theorem rooms_loop_filter {α : Type} (get : Json → Except Exn α)
    (kvs : List (String × Json)) (m : List (String × α)) :
    rooms_loop get (kvs.filter (fun kv => !decide (256 ≤ kv.1.utf8ByteSize))) m =
      rooms_loop get kvs m := by
  induction kvs generalizing m with
  | nil => rfl
  | cons hd tl ih =>
    obtain ⟨key, value⟩ := hd
    by_cases hs : key.utf8ByteSize < 256
    · have hn : ¬ 256 ≤ key.utf8ByteSize := Nat.not_le.mpr hs
      simp only [List.filter_cons, hn, decide_False, Bool.not_false, if_true]
      unfold rooms_loop
      simp only [hs, if_true]
      cases get value with
      | error e => rfl
      | ok room => exact ih _
    · have hn : 256 ≤ key.utf8ByteSize := Nat.not_lt.mp hs
      simp only [List.filter_cons, hn, decide_True, Bool.not_true, Bool.false_eq_true,
        if_false]
      rw [ih m]
      conv => rhs; unfold rooms_loop
      simp only [hs, if_false]

theorem rooms_category_pruned {α : Type} (get : Json → Except Exn α) (ro : Json)
    (category : String) (hc : category ∈ ["join", "leave", "invite", "knock"]) :
    rooms_category get
        (map_fields ["join", "leave", "invite", "knock"] drop_oversized_rooms ro) category =
      rooms_category get ro category := by
  unfold rooms_category
  rw [find_map_fields]
  cases ro.find? category with
  | none => rfl
  | some entries =>
    simp only [Option.map_some', hc, if_true]
    cases entries with
    | object o => exact rooms_loop_filter get o []
    | _ => rfl

theorem from_json_Rooms_pruned (x : Externals) (ro : Json) :
    from_json_Rooms x
        (map_fields ["join", "leave", "invite", "knock"] drop_oversized_rooms ro) =
      from_json_Rooms x ro := by
  unfold from_json_Rooms
  rw [rooms_category_pruned _ ro "join" (by decide),
    rooms_category_pruned _ ro "leave" (by decide),
    rooms_category_pruned _ ro "invite" (by decide),
    rooms_category_pruned _ ro "knock" (by decide)]

theorem erase_invalid_users_cons (s : String) (ys : List String) :
    erase_invalid_users (s :: ys) =
      if 255 < s.utf8ByteSize then erase_invalid_users ys
      else s :: erase_invalid_users ys := by
  unfold erase_invalid_users
  by_cases h : 255 < s.utf8ByteSize
  · simp [List.filter_cons, h]
  · simp [List.filter_cons, h]

theorem traverse_drop_oversized (a : List Json) :
    (traverse Json.get_string (a.filter keep_user)).map erase_invalid_users =
      (traverse Json.get_string a).map erase_invalid_users := by
  induction a with
  | nil => rfl
  | cons e tl ih =>
    cases e with
    | string s =>
      by_cases h : 255 < s.utf8ByteSize
      · have hk : keep_user (.string s) = false := by simp [keep_user, h]
        rw [List.filter_cons, hk]
        simp only [Bool.false_eq_true, if_false]
        rw [ih]
        simp only [traverse, Json.get_string]
        cases traverse Json.get_string tl with
        | error err => rfl
        | ok ys => simp [Except.map, erase_invalid_users_cons, h]
      · have hk : keep_user (.string s) = true := by simp [keep_user, h]
        rw [List.filter_cons, hk]
        simp only [if_true, traverse, Json.get_string]
        cases h1 : traverse Json.get_string (tl.filter keep_user) with
        | error err =>
          cases h2 : traverse Json.get_string tl with
          | error err' =>
            rw [h1, h2] at ih
            simpa [Except.map] using ih
          | ok ys =>
            rw [h1, h2] at ih
            simp [Except.map] at ih
        | ok ys' =>
          cases h2 : traverse Json.get_string tl with
          | error err' =>
            rw [h1, h2] at ih
            simp [Except.map] at ih
          | ok ys =>
            rw [h1, h2] at ih
            simp only [Except.map, Except.ok.injEq] at ih
            simp [Except.map, erase_invalid_users_cons, h, ih]
    | null => simp [List.filter_cons, keep_user, traverse, Json.get_string, Except.map]
    | boolean b => simp [List.filter_cons, keep_user, traverse, Json.get_string, Except.map]
    | number_integer n =>
      simp [List.filter_cons, keep_user, traverse, Json.get_string, Except.map]
    | number_unsigned n =>
      simp [List.filter_cons, keep_user, traverse, Json.get_string, Except.map]
    | number_float f =>
      simp [List.filter_cons, keep_user, traverse, Json.get_string, Except.map]
    | array l => simp [List.filter_cons, keep_user, traverse, Json.get_string, Except.map]
    | object o => simp [List.filter_cons, keep_user, traverse, Json.get_string, Except.map]

theorem device_list_field_eq (obj : Json) (key : String) :
    device_list_field obj key =
      match obj.find? key with
      | some c => c.get_string_vector.map erase_invalid_users
      | none => .ok [] := by
  unfold device_list_field
  cases h : obj.find? key with
  | none =>
    have hc : obj.count key = 0 := (count_eq_zero_iff _ _).mpr h
    simp [hc, pure, Except.pure]
  | some c =>
    have hc : obj.count key ≠ 0 := (count_ne_zero_iff _ _).mpr ⟨c, h⟩
    rw [if_pos hc, at_of_find _ _ _ h]
    cases hv : c.get_string_vector with
    | error e => simp [bind, Except.bind, hv, Except.map]
    | ok v => simp [bind, Except.bind, hv, Except.map, pure, Except.pure]

theorem get_string_vector_pruned (c : Json) :
    (drop_oversized_users c).get_string_vector.map erase_invalid_users =
      c.get_string_vector.map erase_invalid_users := by
  cases c with
  | array a => exact traverse_drop_oversized a
  | _ => rfl

theorem device_list_field_pruned (dl : Json) (key : String)
    (hk : key ∈ ["changed", "left"]) :
    device_list_field (map_fields ["changed", "left"] drop_oversized_users dl) key =
      device_list_field dl key := by
  rw [device_list_field_eq, device_list_field_eq, find_map_fields]
  cases dl.find? key with
  | none => rfl
  | some c =>
    simp only [Option.map_some', hk, if_true]
    exact get_string_vector_pruned c

theorem from_json_DeviceLists_pruned (dl : Json) :
    from_json_DeviceLists (map_fields ["changed", "left"] drop_oversized_users dl) =
      from_json_DeviceLists dl := by
  unfold from_json_DeviceLists
  rw [device_list_field_pruned dl "changed" (by decide),
    device_list_field_pruned dl "left" (by decide)]

theorem Sync_device_lists_of_find (obj d : Json) (h : obj.find? "device_lists" = some d) :
    Sync_device_lists obj = from_json_DeviceLists d := by
  have hc : obj.count "device_lists" ≠ 0 := (count_ne_zero_iff _ _).mpr ⟨d, h⟩
  unfold Sync_device_lists
  rw [if_pos hc, at_of_find _ _ _ h]
  rfl

theorem Sync_rooms_pruned (x : Externals) (doc : Json) :
    Sync_rooms x (pruned_document doc) = Sync_rooms x doc := by
  unfold pruned_document
  rw [Sync_rooms_congr x _ _ (same_field_map_fields ["device_lists"] _ _ "rooms" (by decide))]
  cases h : doc.find? "rooms" with
  | none =>
    have h' : (map_fields ["rooms"]
        (map_fields ["join", "leave", "invite", "knock"] drop_oversized_rooms) doc).find?
          "rooms" = none := by
      rw [find_map_fields, h]
      rfl
    rw [Sync_rooms_absent x _ h', Sync_rooms_absent x _ h]
  | some ro =>
    have h' : (map_fields ["rooms"]
        (map_fields ["join", "leave", "invite", "knock"] drop_oversized_rooms) doc).find?
          "rooms" =
        some (map_fields ["join", "leave", "invite", "knock"] drop_oversized_rooms ro) := by
      rw [find_map_fields, h]
      rfl
    rw [Sync_rooms_of_find x _ _ h', Sync_rooms_of_find x _ _ h, from_json_Rooms_pruned]

theorem Sync_device_lists_pruned (doc : Json) :
    Sync_device_lists (pruned_document doc) = Sync_device_lists doc := by
  unfold pruned_document
  have hin : (map_fields ["rooms"]
      (map_fields ["join", "leave", "invite", "knock"] drop_oversized_rooms) doc).find?
        "device_lists" = doc.find? "device_lists" :=
    (same_field_map_fields ["rooms"] _ doc "device_lists" (by decide)).1
  cases h : doc.find? "device_lists" with
  | none =>
    have h' : (map_fields ["device_lists"]
        (map_fields ["changed", "left"] drop_oversized_users)
        (map_fields ["rooms"]
          (map_fields ["join", "leave", "invite", "knock"] drop_oversized_rooms) doc)).find?
          "device_lists" = none := by
      rw [find_map_fields, hin, h]
      rfl
    rw [Sync_device_lists_absent _ h', Sync_device_lists_absent _ h]
  | some d =>
    have h' : (map_fields ["device_lists"]
        (map_fields ["changed", "left"] drop_oversized_users)
        (map_fields ["rooms"]
          (map_fields ["join", "leave", "invite", "knock"] drop_oversized_rooms) doc)).find?
          "device_lists" =
        some (map_fields ["changed", "left"] drop_oversized_users d) := by
      rw [find_map_fields, hin, h]
      rfl
    rw [Sync_device_lists_of_find _ _ h', Sync_device_lists_of_find _ _ h,
      from_json_DeviceLists_pruned]

theorem same_field_pruned (doc : Json) (k : String) (h1 : k ≠ "rooms")
    (h2 : k ≠ "device_lists") : same_field (pruned_document doc) doc k := by
  have ha := same_field_map_fields ["device_lists"]
    (map_fields ["changed", "left"] drop_oversized_users)
    (map_fields ["rooms"]
      (map_fields ["join", "leave", "invite", "knock"] drop_oversized_rooms) doc) k
    (by simpa using h2)
  have hb := same_field_map_fields ["rooms"]
    (map_fields ["join", "leave", "invite", "knock"] drop_oversized_rooms) doc k
    (by simpa using h1)
  exact ⟨ha.1.trans hb.1, ha.2.trans hb.2⟩

theorem find_rooms_pruned (doc ro : Json) (h : doc.find? "rooms" = some ro) :
    (pruned_document doc).find? "rooms" =
      some (map_fields ["join", "leave", "invite", "knock"] drop_oversized_rooms ro) := by
  unfold pruned_document
  rw [(same_field_map_fields ["device_lists"] _ _ "rooms" (by decide)).1, find_map_fields, h]
  rfl

theorem find_device_lists_pruned (doc dl : Json) (h : doc.find? "device_lists" = some dl) :
    (pruned_document doc).find? "device_lists" =
      some (map_fields ["changed", "left"] drop_oversized_users dl) := by
  unfold pruned_document
  rw [find_map_fields,
    (same_field_map_fields ["rooms"] _ doc "device_lists" (by decide)).1, h]
  rfl

theorem filter_keep_user_strings (ss : List String) :
    (ss.map Json.string).filter keep_user =
      (ss.filter (fun s => decide (s.utf8ByteSize ≤ 255))).map Json.string := by
  induction ss with
  | nil => rfl
  | cons s tl ih =>
    by_cases h : s.utf8ByteSize ≤ 255
    · have h' : ¬ 255 < s.utf8ByteSize := Nat.not_lt.mpr h
      simp [List.filter_cons, keep_user, h, h', ih]
    · have h' : 255 < s.utf8ByteSize := Nat.not_le.mp h
      simp [List.filter_cons, keep_user, h, h', ih]

theorem filter_short_keys (kvs : List (String × Json)) :
    kvs.filter (fun kv => !decide (256 ≤ kv.1.utf8ByteSize)) =
      kvs.filter (fun kv => decide (kv.1.utf8ByteSize < 256)) := by
  congr 1
  funext kv
  by_cases h : kv.1.utf8ByteSize < 256
  · have h' : ¬ 256 ≤ kv.1.utf8ByteSize := Nat.not_le.mpr h
    simp [h, h']
  · have h' : 256 ≤ kv.1.utf8ByteSize := Nat.not_lt.mp h
    simp [h, h']

/-- Claim C17.  Decoding is invariant under removal of the records that the
validators drop: every raw document decodes to the same outcome (the same
response or the same failure) as its pruned document.  The pruned document is
the one in which each object-valued category of `rooms` has lost exactly its
entries with a key of 256 bytes or more, and each array of strings at
`device_lists.changed` or `device_lists.left` has lost exactly its strings of
more than 255 bytes. -/
theorem C17_pruning_invariant (x : Externals) (doc : Json) :
    from_json_Sync x (pruned_document doc) = from_json_Sync x doc ∧
    (∀ (ro : Json) (kvs : List (String × Json)) (category : String),
      category ∈ ["join", "leave", "invite", "knock"] →
      doc.find? "rooms" = some ro → ro.find? category = some (.object kvs) →
      ∃ ro', (pruned_document doc).find? "rooms" = some ro' ∧
        ro'.find? category =
          some (.object (kvs.filter (fun kv => decide (kv.1.utf8ByteSize < 256))))) ∧
    (∀ (dl : Json) (ss : List String) (key : String), key ∈ ["changed", "left"] →
      doc.find? "device_lists" = some dl → dl.find? key = some (.array (ss.map .string)) →
      ∃ dl', (pruned_document doc).find? "device_lists" = some dl' ∧
        dl'.find? key =
          some (.array ((ss.filter (fun s => decide (s.utf8ByteSize ≤ 255))).map .string))) := by
  refine ⟨?_, ?_, ?_⟩
  · unfold from_json_Sync
    rw [Sync_rooms_pruned, Sync_device_lists_pruned,
      Sync_to_device_congr x _ _ (same_field_pruned doc "to_device" (by decide) (by decide)),
      Sync_device_one_time_keys_count_congr x _ _
        (same_field_pruned doc "device_one_time_keys_count" (by decide) (by decide)),
      Sync_device_unused_fallback_key_types_congr _ _
        (same_field_pruned doc "device_unused_fallback_key_types" (by decide) (by decide)),
      Sync_presence_congr x _ _ (same_field_pruned doc "presence" (by decide) (by decide)),
      field_account_data_congr x _ _
        (same_field_pruned doc "account_data" (by decide) (by decide)),
      Sync_next_batch_congr _ _ (same_field_pruned doc "next_batch" (by decide) (by decide))]
  · intro ro kvs category hc hro hcat
    refine ⟨_, find_rooms_pruned doc ro hro, ?_⟩
    rw [find_map_fields, hcat]
    simp only [Option.map_some', hc, if_true, drop_oversized_rooms, filter_short_keys]
  · intro dl ss key hk hdl hkey
    refine ⟨_, find_device_lists_pruned doc dl hdl, ?_⟩
    rw [find_map_fields, hkey]
    simp only [Option.map_some', hk, if_true, drop_oversized_users, filter_keep_user_strings]

set_option maxRecDepth 100000 in
theorem C17_pruning_invariant_witness :
    pruned_document prunable_document =
        .object [("device_lists", .object [("changed", .array [.string "@a:x"])]),
          ("next_batch", .string "tok1"),
          ("rooms", .object [("join", .object [("!a:x", .object [])])])] ∧
      from_json_Sync generic_externals (pruned_document prunable_document) =
        from_json_Sync generic_externals prunable_document ∧
      from_json_Sync generic_externals prunable_document =
        .ok { next_batch := "tok1", rooms := { join := [("!a:x", {})] },
              device_lists := { changed := ["@a:x"] } } :=
  ⟨rfl, (C17_pruning_invariant generic_externals prunable_document).1, rfl⟩

/-! ## A decoder succeeds exactly when its present fields decode -/

theorem guarded_field_iff {α : Type} (obj : Json) (key : String)
    (decode : Json → Except Exn α) (dflt got : α) :
    (if obj.count key ≠ 0 then obj.at_ key >>= decode else pure dflt) = .ok got ↔
      field_spec (obj.find? key) decode dflt got := by
  cases h : obj.find? key with
  | none =>
    have hc : obj.count key = 0 := (count_eq_zero_iff _ _).mpr h
    simp [hc, field_spec, pure, Except.pure, eq_comm]
  | some v =>
    have hc : obj.count key ≠ 0 := (count_ne_zero_iff _ _).mpr ⟨v, h⟩
    rw [if_pos hc, at_of_find _ _ _ h]
    simp [field_spec, bind, Except.bind]

theorem matched_field_iff {α : Type} (raw : Option Json) (decode : Json → Except Exn α)
    (dflt got : α) :
    (match raw with
      | some v => decode v
      | none => pure dflt) = .ok got ↔ field_spec raw decode dflt got := by
  cases raw with
  | none => simp [field_spec, pure, Except.pure, eq_comm]
  | some v => simp [field_spec]

theorem room_state_iff (x : Externals) (obj : Json) (got : State x) :
    room_state x obj = .ok got ↔
      field_spec (obj.find? "state") (from_json_State x) {} got := by
  unfold room_state
  exact guarded_field_iff obj "state" (from_json_State x) {} got

theorem room_timeline_iff (x : Externals) (obj : Json) (got : Timeline x) :
    room_timeline x obj = .ok got ↔
      field_spec (obj.find? "timeline") (from_json_Timeline x) {} got := by
  unfold room_timeline
  exact guarded_field_iff obj "timeline" (from_json_Timeline x) {} got

theorem room_unread_notifications_iff (x : Externals) (obj : Json)
    (got : UnreadNotifications) :
    room_unread_notifications x obj = .ok got ↔
      field_spec (obj.find? "unread_notifications") (from_json_UnreadNotifications x) {}
        got := by
  unfold room_unread_notifications
  exact matched_field_iff _ _ _ _

theorem room_ephemeral_iff (x : Externals) (obj : Json) (got : Ephemeral x) :
    room_ephemeral x obj = .ok got ↔
      field_spec (obj.find? "ephemeral") (from_json_Ephemeral x) {} got := by
  unfold room_ephemeral
  exact matched_field_iff _ _ _ _

theorem from_json_AccountData_iff (x : Externals) (obj : Json) (got : AccountData x) :
    from_json_AccountData x obj = .ok got ↔
      ∃ ev, obj.find? "events" = some ev ∧
        x.parse_room_account_data_events ev = .ok got.events := by
  unfold from_json_AccountData
  simp only [bind_ok_iff, pure_ok_iff, at_ok_iff]
  constructor
  · rintro ⟨ev, hev, es, hes, rfl⟩
    exact ⟨ev, hev, hes⟩
  · rintro ⟨ev, hev, hes⟩
    exact ⟨ev, hev, _, hes, rfl⟩

theorem from_json_State_iff (x : Externals) (obj : Json) (got : State x) :
    from_json_State x obj = .ok got ↔
      ∃ ev, obj.find? "events" = some ev ∧ x.parse_state_events ev = .ok got.events := by
  unfold from_json_State
  simp only [bind_ok_iff, pure_ok_iff, at_ok_iff]
  constructor
  · rintro ⟨ev, hev, es, hes, rfl⟩
    exact ⟨ev, hev, hes⟩
  · rintro ⟨ev, hev, hes⟩
    exact ⟨ev, hev, _, hes, rfl⟩

theorem field_account_data_iff (x : Externals) (obj : Json) (got : AccountData x) :
    field_account_data x obj = .ok got ↔
      events_field_spec (obj.find? "account_data") x.parse_room_account_data_events
        got.events := by
  unfold field_account_data
  cases h : obj.find? "account_data" with
  | none =>
    have hc : obj.count "account_data" = 0 := (count_eq_zero_iff _ _).mpr h
    cases got
    simp [hc, events_field_spec, pure, Except.pure, eq_comm]
  | some a =>
    have hc : obj.count "account_data" ≠ 0 := (count_ne_zero_iff _ _).mpr ⟨a, h⟩
    rw [if_pos hc, at_of_find _ _ _ h]
    cases he : a.find? "events" with
    | none =>
      have hc' : a.count "events" = 0 := (count_eq_zero_iff _ _).mpr he
      cases got
      simp [bind, Except.bind, hc', events_field_spec, field_spec, he, pure, Except.pure,
        eq_comm]
    | some ev =>
      have hc' : a.count "events" ≠ 0 := (count_ne_zero_iff _ _).mpr ⟨ev, he⟩
      simp only [bind, Except.bind, hc', if_true, ne_eq, not_false_eq_true,
        events_field_spec, field_spec, he]
      rw [from_json_AccountData_iff, he]
      simp

theorem from_json_Ephemeral_iff (x : Externals) (obj : Json) (got : Ephemeral x) :
    from_json_Ephemeral x obj = .ok got ↔
      field_spec (obj.find? "events") x.parse_ephemeral_events [] got.events := by
  unfold from_json_Ephemeral
  cases h : obj.find? "events" with
  | none =>
    have hc : obj.count "events" = 0 := (count_eq_zero_iff _ _).mpr h
    cases got
    simp [hc, field_spec, pure, Except.pure, eq_comm]
  | some ev =>
    have hc : obj.count "events" ≠ 0 := (count_ne_zero_iff _ _).mpr ⟨ev, h⟩
    rw [if_neg hc, at_of_find _ _ _ h]
    cases got
    cases hp : x.parse_ephemeral_events ev <;>
      simp [bind, Except.bind, field_spec, hp, pure, Except.pure]

theorem from_json_ToDevice_iff (x : Externals) (obj : Json) (got : ToDevice x) :
    from_json_ToDevice x obj = .ok got ↔
      field_spec (obj.find? "events") x.parse_device_events [] got.events := by
  unfold from_json_ToDevice
  cases h : obj.find? "events" with
  | none =>
    have hc : obj.count "events" = 0 := (count_eq_zero_iff _ _).mpr h
    cases got
    simp [hc, field_spec, pure, Except.pure, eq_comm]
  | some ev =>
    have hc : obj.count "events" ≠ 0 := (count_ne_zero_iff _ _).mpr ⟨ev, h⟩
    rw [if_pos hc, at_of_find _ _ _ h]
    cases got
    cases hp : x.parse_device_events ev <;>
      simp [bind, Except.bind, field_spec, hp, pure, Except.pure]

theorem from_json_InvitedRoom_iff (x : Externals) (obj : Json) (got : InvitedRoom) :
    from_json_InvitedRoom x obj = .ok got ↔
      events_field_spec (obj.find? "invite_state") x.parse_stripped_events
        got.invite_state := by
  unfold from_json_InvitedRoom
  cases got
  cases hs : obj.find? "invite_state" with
  | none => simp [events_field_spec, pure, Except.pure, eq_comm]
  | some st =>
    cases he : st.find? "events" with
    | none => simp [events_field_spec, field_spec, he, pure, Except.pure, eq_comm]
    | some ev =>
      cases hp : x.parse_stripped_events ev <;>
        simp [events_field_spec, field_spec, he, bind, Except.bind, hp, pure, Except.pure]

theorem from_json_KnockedRoom_iff (x : Externals) (obj : Json) (got : KnockedRoom) :
    from_json_KnockedRoom x obj = .ok got ↔
      events_field_spec (obj.find? "knock_state") x.parse_stripped_events
        got.knock_state := by
  unfold from_json_KnockedRoom
  cases got
  cases hs : obj.find? "knock_state" with
  | none => simp [events_field_spec, pure, Except.pure, eq_comm]
  | some st =>
    cases he : st.find? "events" with
    | none => simp [events_field_spec, field_spec, he, pure, Except.pure, eq_comm]
    | some ev =>
      cases hp : x.parse_stripped_events ev <;>
        simp [events_field_spec, field_spec, he, bind, Except.bind, hp, pure, Except.pure]

theorem from_json_JoinedRoom_iff (x : Externals) (obj : Json) (got : JoinedRoom x) :
    from_json_JoinedRoom x obj = .ok got ↔
      field_spec (obj.find? "state") (from_json_State x) {} got.state ∧
      field_spec (obj.find? "timeline") (from_json_Timeline x) {} got.timeline ∧
      field_spec (obj.find? "unread_notifications") (from_json_UnreadNotifications x) {}
        got.unread_notifications ∧
      field_spec (obj.find? "ephemeral") (from_json_Ephemeral x) {} got.ephemeral ∧
      events_field_spec (obj.find? "account_data") x.parse_room_account_data_events
        got.account_data.events := by
  rw [← room_state_iff, ← room_timeline_iff, ← room_unread_notifications_iff,
    ← room_ephemeral_iff, ← field_account_data_iff]
  unfold from_json_JoinedRoom
  simp only [bind_ok_iff, pure_ok_iff]
  constructor
  · rintro ⟨a1, h1, a2, h2, a3, h3, a4, h4, a5, h5, rfl⟩
    exact ⟨h1, h2, h3, h4, h5⟩
  · rintro ⟨h1, h2, h3, h4, h5⟩
    exact ⟨_, h1, _, h2, _, h3, _, h4, _, h5, rfl⟩

theorem from_json_LeftRoom_iff (x : Externals) (obj : Json) (got : LeftRoom x) :
    from_json_LeftRoom x obj = .ok got ↔
      field_spec (obj.find? "state") (from_json_State x) {} got.state ∧
      field_spec (obj.find? "timeline") (from_json_Timeline x) {} got.timeline := by
  rw [← room_state_iff, ← room_timeline_iff]
  unfold from_json_LeftRoom
  simp only [bind_ok_iff, pure_ok_iff]
  constructor
  · rintro ⟨a1, h1, a2, h2, rfl⟩
    exact ⟨h1, h2⟩
  · rintro ⟨h1, h2⟩
    exact ⟨_, h1, _, h2, rfl⟩

theorem notification_counter_iff (x : Externals) (obj : Json) (key : String)
    (got : Option Nat) :
    notification_counter x obj key = .ok got ↔
      field_spec (obj.find? key) (fun v => (Json.get_uint64 x v).map some) none got := by
  unfold notification_counter
  exact matched_field_iff _ _ _ _

theorem from_json_UnreadNotifications_iff (x : Externals) (obj : Json)
    (got : UnreadNotifications) :
    from_json_UnreadNotifications x obj = .ok got ↔
      field_spec (obj.find? "highlight_count") (fun v => (Json.get_uint64 x v).map some)
        none got.highlight_count ∧
      field_spec (obj.find? "notification_count") (fun v => (Json.get_uint64 x v).map some)
        none got.notification_count := by
  rw [← notification_counter_iff, ← notification_counter_iff]
  unfold from_json_UnreadNotifications
  simp only [bind_ok_iff, pure_ok_iff]
  constructor
  · rintro ⟨a1, h1, a2, h2, rfl⟩
    exact ⟨h1, h2⟩
  · rintro ⟨h1, h2⟩
    exact ⟨_, h1, _, h2, rfl⟩

theorem device_list_field_iff (obj : Json) (key : String) (got : List String) :
    device_list_field obj key = .ok got ↔
      field_spec (obj.find? key) (fun c => c.get_string_vector.map erase_invalid_users) []
        got := by
  rw [device_list_field_eq]
  cases obj.find? key with
  | none => simp [field_spec, eq_comm]
  | some c => simp [field_spec]

theorem from_json_DeviceLists_iff (obj : Json) (got : DeviceLists) :
    from_json_DeviceLists obj = .ok got ↔
      field_spec (obj.find? "changed")
        (fun c => c.get_string_vector.map erase_invalid_users) [] got.changed ∧
      field_spec (obj.find? "left")
        (fun c => c.get_string_vector.map erase_invalid_users) [] got.left := by
  rw [← device_list_field_iff, ← device_list_field_iff]
  unfold from_json_DeviceLists
  simp only [bind_ok_iff, pure_ok_iff]
  constructor
  · rintro ⟨a1, h1, a2, h2, rfl⟩
    exact ⟨h1, h2⟩
  · rintro ⟨h1, h2⟩
    exact ⟨_, h1, _, h2, rfl⟩

theorem rooms_category_iff {α : Type} (get : Json → Except Exn α) (obj : Json)
    (category : String) (got : List (String × α)) :
    rooms_category get obj category = .ok got ↔
      field_spec (obj.find? category) (fun entries => rooms_loop get entries.items []) []
        got := by
  unfold rooms_category
  cases obj.find? category with
  | none => simp [field_spec, eq_comm]
  | some entries => simp [field_spec]

theorem from_json_Rooms_iff (x : Externals) (obj : Json) (got : Rooms x) :
    from_json_Rooms x obj = .ok got ↔
      field_spec (obj.find? "join")
        (fun entries => rooms_loop (from_json_JoinedRoom x) entries.items []) [] got.join ∧
      field_spec (obj.find? "leave")
        (fun entries => rooms_loop (from_json_LeftRoom x) entries.items []) [] got.leave ∧
      field_spec (obj.find? "invite")
        (fun entries => rooms_loop (from_json_InvitedRoom x) entries.items []) []
        got.invite ∧
      field_spec (obj.find? "knock")
        (fun entries => rooms_loop (from_json_KnockedRoom x) entries.items []) []
        got.knock := by
  rw [← rooms_category_iff, ← rooms_category_iff, ← rooms_category_iff, ← rooms_category_iff]
  exact from_json_Rooms_ok_iff x obj got

theorem Sync_presence_iff (x : Externals) (obj : Json) (got : List x.PresenceEvent) :
    Sync_presence x obj = .ok got ↔
      events_field_spec (obj.find? "presence")
        (fun events => .ok (presence_loop x events.elements)) got := by
  rw [Sync_presence_eq]
  cases obj.find? "presence" with
  | none => simp [events_field_spec, eq_comm]
  | some p =>
    cases hp : p.find? "events" with
    | none => simp [events_field_spec, field_spec, hp, eq_comm]
    | some ev => simp [events_field_spec, field_spec, hp]

theorem Sync_next_batch_iff (obj : Json) (got : String) :
    Sync_next_batch obj = .ok got ↔
      ∃ n, obj.find? "next_batch" = some n ∧ n.get_string = .ok got := by
  unfold Sync_next_batch
  simp only [bind_ok_iff, at_ok_iff]

theorem from_json_Sync_iff (x : Externals) (obj : Json) (got : Sync x) :
    from_json_Sync x obj = .ok got ↔
      field_spec (obj.find? "rooms") (from_json_Rooms x) {} got.rooms ∧
      field_spec (obj.find? "device_lists") from_json_DeviceLists {} got.device_lists ∧
      field_spec (obj.find? "to_device") (from_json_ToDevice x) {} got.to_device ∧
      field_spec (obj.find? "device_one_time_keys_count") (Json.get_map_uint16 x) []
        got.device_one_time_keys_count ∧
      field_spec (obj.find? "device_unused_fallback_key_types")
        (fun v => if v.is_array then v.get_string_vector.map some else .ok none) none
        got.device_unused_fallback_key_types ∧
      events_field_spec (obj.find? "presence")
        (fun events => .ok (presence_loop x events.elements)) got.presence ∧
      events_field_spec (obj.find? "account_data") x.parse_room_account_data_events
        got.account_data.events ∧
      ∃ n, obj.find? "next_batch" = some n ∧ n.get_string = .ok got.next_batch := by
  rw [from_json_Sync_ok_iff, ← Sync_presence_iff, ← field_account_data_iff,
    ← Sync_next_batch_iff]
  have h1 : Sync_rooms x obj = .ok got.rooms ↔
      field_spec (obj.find? "rooms") (from_json_Rooms x) {} got.rooms := by
    unfold Sync_rooms
    exact guarded_field_iff obj "rooms" (from_json_Rooms x) {} got.rooms
  have h2 : Sync_device_lists obj = .ok got.device_lists ↔
      field_spec (obj.find? "device_lists") from_json_DeviceLists {} got.device_lists := by
    unfold Sync_device_lists
    exact guarded_field_iff obj "device_lists" from_json_DeviceLists {} got.device_lists
  have h3 : Sync_to_device x obj = .ok got.to_device ↔
      field_spec (obj.find? "to_device") (from_json_ToDevice x) {} got.to_device := by
    unfold Sync_to_device
    exact guarded_field_iff obj "to_device" (from_json_ToDevice x) {} got.to_device
  have h4 : Sync_device_one_time_keys_count x obj = .ok got.device_one_time_keys_count ↔
      field_spec (obj.find? "device_one_time_keys_count") (Json.get_map_uint16 x) []
        got.device_one_time_keys_count := by
    unfold Sync_device_one_time_keys_count
    exact guarded_field_iff obj "device_one_time_keys_count" (Json.get_map_uint16 x) []
      got.device_one_time_keys_count
  have h5 : Sync_device_unused_fallback_key_types obj =
        .ok got.device_unused_fallback_key_types ↔
      field_spec (obj.find? "device_unused_fallback_key_types")
        (fun v => if v.is_array then v.get_string_vector.map some else .ok none) none
        got.device_unused_fallback_key_types := by
    unfold Sync_device_unused_fallback_key_types
    exact matched_field_iff _ _ _ _
  rw [h1, h2, h3, h4, h5]

theorem from_json_Timeline_iff (x : Externals) (o : List (String × Json))
    (got : Timeline x) :
    from_json_Timeline x (.object o) = .ok got ↔
      field_spec (o.lookup "prev_batch") Json.get_string "" got.prev_batch ∧
      field_spec (o.lookup "limited") Json.get_bool false got.limited ∧
      ∃ ev, o.lookup "events" = some ev ∧ x.parse_timeline_events ev = .ok got.events := by
  rw [from_json_Timeline_ok_iff, value_object, value_object]
  simp only [Json.find?]
  have h1 : (match o.lookup "prev_batch" with
      | some v => Json.get_string v
      | none => .ok "") = .ok got.prev_batch ↔
      field_spec (o.lookup "prev_batch") Json.get_string "" got.prev_batch :=
    matched_field_iff _ _ _ _
  have h2 : (match o.lookup "limited" with
      | some v => Json.get_bool v
      | none => .ok false) = .ok got.limited ↔
      field_spec (o.lookup "limited") Json.get_bool false got.limited :=
    matched_field_iff _ _ _ _
  rw [h1, h2]

/-- Claim C12, amended.  Every decoder succeeds exactly when each of its
fields that is present decodes, and every field that is absent resolves to its
default whatever the other fields hold: this holds for the top-level fields
other than `next_batch`, the categories of `rooms`, the sections of a joined or
left room, the two notification counters, `changed` and `left`, `prev_batch`
and `limited`, and for `events` inside `ephemeral`, `account_data`,
`to_device`, `presence`, `invite_state` and `knock_state`.  A room section
given as the empty object decodes to the default section.  The `events` key of
a `state` or `timeline` object is the exception: it has to be present, and an
object without it is a decode failure. -/
theorem C12_absent_fields_default (x : Externals) :
    (∀ obj got, from_json_Sync x obj = .ok got ↔
      field_spec (obj.find? "rooms") (from_json_Rooms x) {} got.rooms ∧
      field_spec (obj.find? "device_lists") from_json_DeviceLists {} got.device_lists ∧
      field_spec (obj.find? "to_device") (from_json_ToDevice x) {} got.to_device ∧
      field_spec (obj.find? "device_one_time_keys_count") (Json.get_map_uint16 x) []
        got.device_one_time_keys_count ∧
      field_spec (obj.find? "device_unused_fallback_key_types")
        (fun v => if v.is_array then v.get_string_vector.map some else .ok none) none
        got.device_unused_fallback_key_types ∧
      events_field_spec (obj.find? "presence")
        (fun events => .ok (presence_loop x events.elements)) got.presence ∧
      events_field_spec (obj.find? "account_data") x.parse_room_account_data_events
        got.account_data.events ∧
      ∃ n, obj.find? "next_batch" = some n ∧ n.get_string = .ok got.next_batch) ∧
    (∀ obj got, from_json_Rooms x obj = .ok got ↔
      field_spec (obj.find? "join")
        (fun entries => rooms_loop (from_json_JoinedRoom x) entries.items []) [] got.join ∧
      field_spec (obj.find? "leave")
        (fun entries => rooms_loop (from_json_LeftRoom x) entries.items []) [] got.leave ∧
      field_spec (obj.find? "invite")
        (fun entries => rooms_loop (from_json_InvitedRoom x) entries.items []) []
        got.invite ∧
      field_spec (obj.find? "knock")
        (fun entries => rooms_loop (from_json_KnockedRoom x) entries.items []) []
        got.knock) ∧
    (∀ obj got, from_json_JoinedRoom x obj = .ok got ↔
      field_spec (obj.find? "state") (from_json_State x) {} got.state ∧
      field_spec (obj.find? "timeline") (from_json_Timeline x) {} got.timeline ∧
      field_spec (obj.find? "unread_notifications") (from_json_UnreadNotifications x) {}
        got.unread_notifications ∧
      field_spec (obj.find? "ephemeral") (from_json_Ephemeral x) {} got.ephemeral ∧
      events_field_spec (obj.find? "account_data") x.parse_room_account_data_events
        got.account_data.events) ∧
    (∀ obj got, from_json_LeftRoom x obj = .ok got ↔
      field_spec (obj.find? "state") (from_json_State x) {} got.state ∧
      field_spec (obj.find? "timeline") (from_json_Timeline x) {} got.timeline) ∧
    (∀ obj got, from_json_UnreadNotifications x obj = .ok got ↔
      field_spec (obj.find? "highlight_count") (fun v => (Json.get_uint64 x v).map some)
        none got.highlight_count ∧
      field_spec (obj.find? "notification_count") (fun v => (Json.get_uint64 x v).map some)
        none got.notification_count) ∧
    (∀ obj got, from_json_Ephemeral x obj = .ok got ↔
      field_spec (obj.find? "events") x.parse_ephemeral_events [] got.events) ∧
    (∀ obj got, from_json_InvitedRoom x obj = .ok got ↔
      events_field_spec (obj.find? "invite_state") x.parse_stripped_events
        got.invite_state) ∧
    (∀ obj got, from_json_KnockedRoom x obj = .ok got ↔
      events_field_spec (obj.find? "knock_state") x.parse_stripped_events
        got.knock_state) ∧
    (∀ obj got, from_json_DeviceLists obj = .ok got ↔
      field_spec (obj.find? "changed")
        (fun c => c.get_string_vector.map erase_invalid_users) [] got.changed ∧
      field_spec (obj.find? "left")
        (fun c => c.get_string_vector.map erase_invalid_users) [] got.left) ∧
    (∀ obj got, from_json_ToDevice x obj = .ok got ↔
      field_spec (obj.find? "events") x.parse_device_events [] got.events) ∧
    (∀ o got, from_json_Timeline x (.object o) = .ok got ↔
      field_spec (o.lookup "prev_batch") Json.get_string "" got.prev_batch ∧
      field_spec (o.lookup "limited") Json.get_bool false got.limited ∧
      ∃ ev, o.lookup "events" = some ev ∧ x.parse_timeline_events ev = .ok got.events) ∧
    (∀ obj got, from_json_State x obj = .ok got ↔
      ∃ ev, obj.find? "events" = some ev ∧ x.parse_state_events ev = .ok got.events) ∧
    (from_json_JoinedRoom x (.object []) = .ok {} ∧
      from_json_LeftRoom x (.object []) = .ok {} ∧
      from_json_InvitedRoom x (.object []) = .ok {} ∧
      from_json_KnockedRoom x (.object []) = .ok {}) ∧
    from_json_Sync x hollow_document =
      .ok { next_batch := "tok1",
            rooms := { join := [("!a:x", {})], leave := [("!b:x", {})],
                       invite := [("!i:x", {})] } } ∧
    ((∀ o, o.lookup "events" = none →
        from_json_State x (.object o) = .error (.out_of_range 403)) ∧
      (∀ o, o.lookup "events" = none →
        ∃ e, from_json_Timeline x (.object o) = .error e)) :=
  ⟨from_json_Sync_iff x, from_json_Rooms_iff x, from_json_JoinedRoom_iff x,
    from_json_LeftRoom_iff x, from_json_UnreadNotifications_iff x,
    from_json_Ephemeral_iff x, from_json_InvitedRoom_iff x, from_json_KnockedRoom_iff x,
    from_json_DeviceLists_iff, from_json_ToDevice_iff x, from_json_Timeline_iff x,
    from_json_State_iff x, ⟨rfl, rfl, rfl, rfl⟩, rfl,
    ⟨from_json_State_without_events x, from_json_Timeline_without_events x⟩⟩

theorem C12_absent_fields_default_witness :
    from_json_JoinedRoom generic_externals sparse_room =
        .ok { state := { events := [] },
              unread_notifications := { highlight_count := some 1 } } ∧
      from_json_Sync generic_externals hollow_document =
        .ok { next_batch := "tok1",
              rooms := { join := [("!a:x", {})], leave := [("!b:x", {})],
                         invite := [("!i:x", {})] } } :=
  ⟨((C12_absent_fields_default generic_externals).2.2.1 sparse_room _).mpr
      ⟨rfl, rfl, rfl, rfl, rfl⟩,
    (C12_absent_fields_default generic_externals).2.2.2.2.2.2.2.2.2.2.2.2.2.1⟩

end responses

end mtx
